import Mathlib

set_option maxRecDepth 4000

/-!
# Verification of the konvertorMzdy CSV-to-XML conversion pipeline

Shallow embedding of the two core source files:

* `clean_csv_header.py` — table normalization (header discovery, column
  projection, numeric-cell cleanup, blank-row filtering, trailer truncation,
  summary folding with forward fill, named-row exclusion);
* `create_xml_file.py` — document assembly (amount normalization, the
  M-then-D item ordering) and serialization (attribute filtering, the
  pretty-printing contract).

Tables are `List (List String)`; Python strings are Lean `String`s, with the
relevant Python string primitives (`strip`, `lower`, `in`, `startswith`,
`splitlines`, single-character `replace`) modelled character-wise below.
-/

/-! ## Python string primitives -/

/-- The characters Python's `str.strip()` (no argument) removes: exactly the
characters for which `str.isspace()` holds (ASCII whitespace, the C1/Unicode
space and line separators). -/
def pyIsSpace (c : Char) : Bool :=
  let n := c.toNat
  n = 0x20 || (0x9 ≤ n && n ≤ 0xD) || (0x1C ≤ n && n ≤ 0x1F) ||
  n = 0x85 || n = 0xA0 || n = 0x1680 || (0x2000 ≤ n && n ≤ 0x200A) ||
  n = 0x2028 || n = 0x2029 || n = 0x202F || n = 0x205F || n = 0x3000

/-- Trim `pyIsSpace` characters from both ends of a character list
(Python `str.strip()`). -/
def pyStripList (l : List Char) : List Char :=
  ((l.dropWhile pyIsSpace).reverse.dropWhile pyIsSpace).reverse

/-- Python `s.strip()`. -/
def pyStrip (s : String) : String :=
  String.mk (pyStripList s.data)

/-- Python `str.lower()`, restricted to the simple one-to-one case mappings
for ASCII, the Latin-1 supplement and Latin Extended-A (which covers the
Slovak alphabet used by this program).  The few multi-character or exotic
mappings (for example U+0130) are left unchanged. -/
def pyToLower (c : Char) : Char :=
  let n := c.toNat
  if 0x41 ≤ n && n ≤ 0x5A then Char.ofNat (n + 0x20)
  else if 0xC0 ≤ n && n ≤ 0xDE && n ≠ 0xD7 then Char.ofNat (n + 0x20)
  else if 0x100 ≤ n && n ≤ 0x137 && n % 2 = 0 && n ≠ 0x130 then Char.ofNat (n + 1)
  else if 0x139 ≤ n && n ≤ 0x147 && n % 2 = 1 then Char.ofNat (n + 1)
  else if 0x14A ≤ n && n ≤ 0x177 && n % 2 = 0 then Char.ofNat (n + 1)
  else if n = 0x178 then Char.ofNat 0xFF
  else if 0x179 ≤ n && n ≤ 0x17D && n % 2 = 1 then Char.ofNat (n + 1)
  else c

/-- Python `s.lower()` applied character-wise. -/
def pyLowerStr (s : String) : String :=
  String.mk (s.data.map pyToLower)

/-- Does the character list `l` start with `p`? (Python `str.startswith`.) -/
def startsWithChars : List Char → List Char → Bool
  | _, [] => true
  | [], _ :: _ => false
  | a :: as, b :: bs => a == b && startsWithChars as bs

/-- Does the character list `hay` contain `needle` as a contiguous run?
(Python `needle in hay`.) -/
def containsChars : List Char → List Char → Bool
  | [], needle => needle.isEmpty
  | h :: t, needle => startsWithChars (h :: t) needle || containsChars t needle

/-- Python `p in s` for strings. -/
def strContains (s p : String) : Bool :=
  containsChars s.data p.data

/-- Python `s.startswith(p)`. -/
def strStarts (s p : String) : Bool :=
  startsWithChars s.data p.data

/-- Python `";".join(row)`. -/
def joinSemi (row : List String) : String :=
  String.mk (List.intercalate [';'] (row.map String.data))

/-! ## clean_csv_header.py -/

/-- `clean_str`: replace NBSP (U+00A0) by an ordinary space, then strip
surrounding whitespace.  (`s.replace("\u00A0", " ").strip()`; a
single-character `str.replace` is a character-wise map.) -/
def clean_str (s : String) : String :=
  pyStrip (String.mk (s.data.map (fun c => if c = '\u00A0' then ' ' else c)))

/-- `normalize` of the source (`clean_str(s).lower()`); named `normalize_str`
here because Mathlib already declares a root `normalize`. -/
def normalize_str (s : String) : String :=
  pyLowerStr (clean_str s)

/-- The primary rule of `find_header_index`: the row is non-empty, its first
cell cleans to exactly `"Názov"`, and the semicolon-joined row contains
`"Účet MD"` and `"Účet Dal"`. -/
def primary_header_row (row : List String) : Bool :=
  match row with
  | [] => false
  | c :: _ =>
    clean_str c == "Názov" && strContains (joinSemi row) "Účet MD" &&
      strContains (joinSemi row) "Účet Dal"

/-- The fallback rule of `find_header_index`: the joined row contains
`"Názov"`, `"Účet MD"` and `"Účet Dal"` anywhere. -/
def fallback_header_row (row : List String) : Bool :=
  strContains (joinSemi row) "Názov" && strContains (joinSemi row) "Účet MD" &&
    strContains (joinSemi row) "Účet Dal"

/-- The message of the `RuntimeError` raised when no header row is found. -/
def headerErrMsg : String := "Nepodarilo sa nájsť hlavičkový riadok."

/-- `find_header_index`: first scan for a row satisfying the primary rule;
only if none exists, scan again for the fallback rule; otherwise fail. -/
def find_header_index (rows : List (List String)) : Except String Nat :=
  match rows.findIdx? primary_header_row with
  | some i => .ok i
  | none =>
    match rows.findIdx? fallback_header_row with
    | some i => .ok i
    | none => .error headerErrMsg

/-- `is_empty_row`: every cell cleans to the empty string
(`not any(clean_str(c) for c in row)`). -/
def is_empty_row (row : List String) : Bool :=
  row.all (fun c => clean_str c == "")

/-- The `wanted_patterns` table of `select_required_columns`, in the source's
insertion order. -/
def wanted_patterns : List (String × List String) :=
  [("Názov", ["názov", "nazov"]),
   ("Účet MD", ["účet md", "ucet md", "md"]),
   ("Účet Dal", ["účet dal", "ucet dal", "dal"]),
   ("Stred.", ["stred", "stred."]),
   ("Zák.", ["zák", "zak", "zák.", "zak."]),
   ("Činn.", ["činn", "cinn", "činn.", "cinn."])]

/-- Is any pattern of any canonical column a substring of the normalized
header cell?  (The inner `break` in the source only stops further pattern
sets from being tried once one matched; membership is an existential.) -/
def cell_matches_wanted (name : String) : Bool :=
  wanted_patterns.any (fun w => w.2.any (fun p => strContains name p))

/-- The `keep_indices` computed by `select_required_columns` from a header. -/
def keep_indices_of (header : List String) : List Nat :=
  ((header.map normalize_str).enum.filter (fun pr => cell_matches_wanted pr.2)).map
    (fun pr => pr.1)

/-- One projected row: `[(r[i] if i < len(r) else "") for i in keep]`. -/
def proj_row (keep : List Nat) (r : List String) : List String :=
  keep.map (fun i => r.getD i "")

/-- `select_required_columns`: keep only the matched columns; if no column
matches, return the table unmodified. -/
def select_required_columns (rows : List (List String)) : List (List String) :=
  match rows with
  | [] => []
  | header :: _ =>
    let keep := keep_indices_of header
    if keep.isEmpty then rows else rows.map (proj_row keep)

/-- The `target_patterns` of `strip_spaces_in_numeric_cols`. -/
def target_patterns : List String :=
  ["účet md", "ucet md", "účet dal", "ucet dal", "stred", "zák", "zak", "činn", "cinn"]

/-- Does a normalized header cell designate a numeric-ish column? -/
def is_numeric_header (name : String) : Bool :=
  target_patterns.any (fun p => strContains name p)

/-- The `numeric_indices` of `strip_spaces_in_numeric_cols`. -/
def numeric_indices_of (header : List String) : List Nat :=
  ((header.map normalize_str).enum.filter (fun pr => is_numeric_header pr.2)).map
    (fun pr => pr.1)

/-- `val.replace("\u00A0", " ").replace(" ", "")`: map NBSP to space, then
delete every space (the second single-character replace is a filter). -/
def remove_spaces_nbsp (s : String) : String :=
  String.mk ((s.data.map (fun c => if c = '\u00A0' then ' ' else c)).filter
    (fun c => c ≠ ' '))

/-- The per-row loop of `strip_spaces_in_numeric_cols`: for each numeric
index in order, if it is in range, replace the cell by its cleaned value. -/
def strip_row (nidx : List Nat) (row : List String) : List String :=
  nidx.foldl (fun r i =>
    if i < r.length then r.set i (remove_spaces_nbsp (r.getD i "")) else r) row

/-- `strip_spaces_in_numeric_cols` (the `header_names` parameter of the
source is unused there; the function reads `rows[0]` itself). -/
def strip_spaces_in_numeric_cols (rows : List (List String)) : List (List String) :=
  match rows with
  | [] => []
  | header :: rest => header :: rest.map (strip_row (numeric_indices_of header))

/-- `find_cinn_col_index`: index of the first header cell whose normal form
contains `"činn"` or `"cinn"`; defaults to the last column (0 for an empty
header). -/
def find_cinn_col_index (header_row : List String) : Nat :=
  match (header_row.map normalize_str).findIdx?
      (fun name => strContains name "činn" || strContains name "cinn") with
  | some i => i
  | none => if header_row.isEmpty then 0 else header_row.length - 1

/-- Indices of the non-empty (after `clean_str`) cells of a row. -/
def nonempty_cells (row : List String) : List Nat :=
  (row.enum.filter (fun pr => clean_str pr.2 ≠ "")).map (fun pr => pr.1)

/-- `is_summary_variant1`: the set of non-empty cell indices is exactly
`{0, cinn_idx}` (and the row has a non-empty cell at all). -/
def is_summary_variant1 (row : List String) (cinn_idx : Nat) : Bool :=
  let ne := nonempty_cells row
  if ne.isEmpty then false
  else ne.all (fun j => j == 0 || j == cinn_idx) && ne.contains 0 &&
    ne.contains cinn_idx

/-- `is_summary_variant2`: the set of non-empty cell indices is exactly
`{cinn_idx}`. -/
def is_summary_variant2 (row : List String) (cinn_idx : Nat) : Bool :=
  let ne := nonempty_cells row
  if ne.isEmpty then false
  else ne.all (fun j => j == cinn_idx) && ne.contains cinn_idx

/-- Python truthiness of an `Optional[str]` (`None` and `""` are falsy). -/
def truthyOpt : Option String → Bool
  | none => false
  | some s => s ≠ ""

/-- The data-row loop of `forward_fill_from_summary`.  Returns `none` when
the Python code would raise `IndexError` (`row[0] = name` on an empty row).
The `(filled, removed)` counters are accumulated on the way out, so the
totals agree with the source's in-place accumulation. -/
def ff_loop (cinn_idx : Nat) :
    List (List String) → Option String → Option (List (List String) × Nat × Nat)
  | [], _ => some ([], 0, 0)
  | row :: rest, cg =>
    if is_summary_variant1 row cinn_idx then
      (ff_loop cinn_idx rest (some (clean_str (row.headD "")))).map
        (fun pr => (pr.1, pr.2.1, pr.2.2 + 1))
    else if is_summary_variant2 row cinn_idx then
      (ff_loop cinn_idx rest cg).map (fun pr => (pr.1, pr.2.1, pr.2.2 + 1))
    else
      let first_clean := clean_str (row.headD "")
      let cg2 : Option String := if first_clean ≠ "" then none else cg
      if first_clean = "" ∧ truthyOpt cg then
        match row, cg with
        | [], _ => none
        | _ :: cells, some n =>
          (ff_loop cinn_idx rest cg2).map
            (fun pr => ((n :: cells) :: pr.1, pr.2.1 + 1, pr.2.2))
        | _ :: _, none => none
      else
        (ff_loop cinn_idx rest cg2).map (fun pr => (row :: pr.1, pr.2.1, pr.2.2))

/-- `forward_fill_from_summary`: keep the header row, run the loop on the
data rows with no pending group name. -/
def forward_fill_from_summary (rows : List (List String)) (cinn_idx : Nat) :
    Option (List (List String) × Nat × Nat) :=
  match rows with
  | [] => some ([], 0, 0)
  | first :: rest =>
    (ff_loop cinn_idx rest none).map (fun pr => (first :: pr.1, pr.2))

/-- Does a row start the `"Vypracoval:"` trailer?
(`clean_str(row[0] if row else "").startswith("Vypracoval:")`.) -/
def starts_vypracoval (row : List String) : Bool :=
  strStarts (clean_str (row.headD "")) "Vypracoval:"

/-- Step 5 of `clean_csv`: truncate at the first trailer row, if any. -/
def truncate_trailer (rows : List (List String)) : List (List String) :=
  match rows.findIdx? starts_vypracoval with
  | some i => rows.take i
  | none => rows

/-- Step 7b of `clean_csv`: is the row excluded because its name cell cleans
and lowercases to `"výplata v hotovosti"`?
(`len(row) > 0 and clean_str(row[0]).lower() == "výplata v hotovosti"`.) -/
def exclude_vyplata (row : List String) : Bool :=
  match row with
  | [] => false
  | c :: _ => pyLowerStr (clean_str c) == "výplata v hotovosti"

/-- Steps 1–5 of `clean_csv` after the header index is known: drop the rows
before the header, project columns, strip numeric cells, drop blank rows,
truncate the trailer. -/
def clean_pre5 (rows : List (List String)) (header_index : Nat) :
    List (List String) :=
  truncate_trailer
    ((strip_spaces_in_numeric_cols
        (select_required_columns (rows.drop header_index))).filter
      (fun row => ¬ is_empty_row row))

/-- The row-level content of `clean_csv` (steps 1–7b; reading, writing and
reporting are I/O and not modelled).  `Except.error` carries the
`RuntimeError` message for a missing header, or `"IndexError"` for the
(unreachable from this pipeline) crash inside the forward fill. -/
def clean_csv_rows (rows : List (List String)) : Except String (List (List String)) :=
  match find_header_index rows with
  | .error e => .error e
  | .ok header_index =>
    let r5 := clean_pre5 rows header_index
    match r5 with
    | [] => .ok []
    | header :: _ =>
      let cinn_idx := find_cinn_col_index header
      match forward_fill_from_summary r5 cinn_idx with
      | none => .error "IndexError"
      | some (r6, _, _) =>
        let r7 :=
          if r6.length > 1 ∧ (is_summary_variant1 (r6.getLastD []) cinn_idx ∨
              is_summary_variant2 (r6.getLastD []) cinn_idx)
          then r6.dropLast else r6
        .ok (r7.filter (fun row => ¬ exclude_vyplata row))

/-! ## create_xml_file.py — document assembly -/

/-- One input record of `build_xml`: the values of the six canonical CSV
columns for one data row (the `cols` lookup of the source resolved). -/
structure CsvRow where
  nazov : String
  ucet_md : String
  ucet_dal : String
  stred : String
  zak : String
  cinn : String
deriving DecidableEq

/-- `to_amount`: strip surrounding whitespace, delete every space, and if the
result has exactly one comma and no period, turn the comma into a period
(both single-character replaces modelled as filter and map). -/
def to_amount (v : String) : String :=
  let v1 := pyStrip v
  let v2 := String.mk (v1.data.filter (fun c => c ≠ ' '))
  if v2.data.count ',' = 1 ∧ v2.data.count '.' = 0 then
    String.mk (v2.data.map (fun c => if c = ',' then '.' else c))
  else v2

/-- The six attributes of one `polozka_ud` item. -/
structure ItemAttrs where
  suma : String
  ucet : String
  strana : String
  os : String
  eo : String
  text_pud : String
deriving DecidableEq

/-- The `m_attrs` dict built for a row (side `"M"`, account from Účet MD). -/
def m_attrs (r : CsvRow) : ItemAttrs :=
  { text_pud := pyStrip r.nazov
    os := pyStrip r.stred
    eo := pyStrip r.zak
    suma := to_amount r.cinn
    ucet := pyStrip r.ucet_md
    strana := "M" }

/-- The `d_attrs` dict built for a row (side `"D"`, account from Účet Dal). -/
def d_attrs (r : CsvRow) : ItemAttrs :=
  { text_pud := pyStrip r.nazov
    os := pyStrip r.stred
    eo := pyStrip r.zak
    suma := to_amount r.cinn
    ucet := pyStrip r.ucet_dal
    strana := "D" }

/-- The row loop of `build_xml`: one pass appending to `m_buffer` and
`d_buffer`. -/
def build_buffers (rows : List CsvRow) : List ItemAttrs × List ItemAttrs :=
  rows.foldl (fun bufs r => (bufs.1 ++ [m_attrs r], bufs.2 ++ [d_attrs r])) ([], [])

/-- The attribute-setting loop shared by the document element and
`write_item`: strip the value; skip the attribute if the stripped value is
empty and `keep_empty` is off, otherwise set it. -/
def keep_filter_attrs (keep_empty : Bool) (kvs : List (String × String)) :
    List (String × String) :=
  kvs.filterMap (fun kv =>
    let v := pyStrip kv.2
    if v = "" ∧ keep_empty = false then none else some (kv.1, v))

/-- The fixed `ORDER` in which `write_item` emits item attributes. -/
def item_order_attrs (a : ItemAttrs) : List (String × String) :=
  [("suma", a.suma), ("ucet", a.ucet), ("strana", a.strana),
   ("os", a.os), ("eo", a.eo), ("text_pud", a.text_pud)]

/-- `write_item`: the attribute list actually set on one `polozka_ud`
element. -/
def write_item (keep_empty : Bool) (a : ItemAttrs) : List (String × String) :=
  keep_filter_attrs keep_empty (item_order_attrs a)

/-- The six `uctovny_doklad` document attributes. -/
structure DocAttrs where
  cislo_ud : String
  datum_ud : String
  mandant_id : String
  druh_ud : String
  typ_ud : String
  text_ud : String
deriving DecidableEq

/-- The `DOC_ATTRS` order in which document attributes are set. -/
def doc_order_attrs (d : DocAttrs) : List (String × String) :=
  [("cislo_ud", d.cislo_ud), ("datum_ud", d.datum_ud), ("mandant_id", d.mandant_id),
   ("druh_ud", d.druh_ud), ("typ_ud", d.typ_ud), ("text_ud", d.text_ud)]

/-- The element tree produced by `build_xml`: the attribute list set on the
`uctovny_doklad` element and, in document order, the attribute list of each
`polozka_ud` child. -/
structure XmlDoc where
  doc_attrs : List (String × String)
  items : List (List (String × String))
deriving DecidableEq

/-- `build_xml`: set the (stripped, possibly skipped) document attributes,
then write every `m_buffer` item followed by every `d_buffer` item. -/
def build_xml (d : DocAttrs) (rows : List CsvRow) (keep_empty : Bool) : XmlDoc :=
  { doc_attrs := keep_filter_attrs keep_empty (doc_order_attrs d)
    items := ((build_buffers rows).1 ++ (build_buffers rows).2).map
      (write_item keep_empty) }

/-! ## create_xml_file.py — serialization

`pretty_no_decl` pipes the tree through `ET.tostring`, `minidom.parseString`
and `toprettyxml(indent="  ")`.  The net effect on attribute values is
minidom's attribute escaping (ElementTree's escaping is undone by the
parse); the printed shape is minidom's: each element on its own line,
two more spaces of indentation per nesting level, leaf elements
self-closing.  `minidom.parseString` raises `ExpatError` when a value
contains a character that is not allowed in XML 1.0, which is modelled by
returning `none`. -/

/-- minidom's `_write_data` escaping of one attribute-value character
(the sequential `replace` calls of minidom never rescan inserted text, so
they amount to this character-wise map). -/
def esc_char (c : Char) : List Char :=
  if c = '&' then "&amp;".data
  else if c = '<' then "&lt;".data
  else if c = '"' then "&quot;".data
  else if c = '>' then "&gt;".data
  else [c]

/-- Escape an attribute value the way minidom prints it. -/
def escape_attrib (s : String) : String :=
  String.mk ((s.data.map esc_char).flatten)

/-- Render an attribute list the way minidom prints it inside a start tag:
a space, the name, `="`, the escaped value, `"`. -/
def render_attrs (kvs : List (String × String)) : String :=
  kvs.foldl (fun acc kv => acc ++ " " ++ kv.1 ++ "=\"" ++ escape_attrib kv.2 ++ "\"") ""

/-- Characters allowed in an XML 1.0 document (what expat accepts). -/
def xml_valid_char (c : Char) : Bool :=
  c == '\t' || c == '\n' || c == '\r' ||
  (0x20 ≤ c.toNat && c.toNat ≤ 0xD7FF) ||
  (0xE000 ≤ c.toNat && c.toNat ≤ 0xFFFD) ||
  (0x10000 ≤ c.toNat && c.toNat ≤ 0x10FFFF)

/-- Are all attribute values of the tree XML-valid (so that the
`tostring`/`parseString` round trip succeeds)? -/
def doc_values_valid (x : XmlDoc) : Bool :=
  x.doc_attrs.all (fun kv => kv.2.data.all xml_valid_char) &&
  x.items.all (fun it => it.all (fun kv => kv.2.data.all xml_valid_char))

/-- The lines `toprettyxml(indent="  ")` prints for the tree built by
`build_xml` (declaration included; a line may still contain embedded
line-break characters if an attribute value does). -/
def pretty_lines_raw (x : XmlDoc) : List String :=
  ["<?xml version=\"1.0\" ?>", "<uctovne_doklady>"] ++
  (match x.items with
   | [] => ["  <uctovny_doklad" ++ render_attrs x.doc_attrs ++ "/>"]
   | _ :: _ =>
     ("  <uctovny_doklad" ++ render_attrs x.doc_attrs ++ ">") ::
     x.items.map (fun it => "    <polozka_ud" ++ render_attrs it ++ "/>") ++
     ["  </uctovny_doklad>"]) ++
  ["</uctovne_doklady>"]

/-- Join lines with a newline after each one (minidom's `newl="\n"`). -/
def joinNl (ls : List String) : String :=
  ls.foldr (fun l acc => l ++ "\n" ++ acc) ""

/-- The full string returned by `toprettyxml`. -/
def toprettyxml_output (x : XmlDoc) : String :=
  joinNl (pretty_lines_raw x)

/-- The line-break characters Python's `str.splitlines()` splits on. -/
def pyLineBreak (c : Char) : Bool :=
  c == '\n' || c == '\r' || c == '\x0b' || c == '\x0c' ||
  c == '\x1c' || c == '\x1d' || c == '\x1e' || c == '\u0085' ||
  c == '\u2028' || c == '\u2029'

/-- Worker for `str.splitlines()`: `acc` holds the current line reversed and
`afterCR` records that the previous character was a `\r` whose line was just
emitted, so that an immediately following `\n` is part of the same `\r\n`
break; no trailing empty line is produced. -/
def splitlinesGo : List Char → List Char → Bool → List String
  | [], acc, _ => if acc.isEmpty then [] else [String.mk acc.reverse]
  | c :: rest, acc, afterCR =>
    if afterCR && c == '\n' then splitlinesGo rest acc false
    else if pyLineBreak c then
      String.mk acc.reverse :: splitlinesGo rest [] (c == '\r')
    else splitlinesGo rest (c :: acc) false

/-- Python `s.splitlines()`. -/
def pySplitlines (s : String) : List String :=
  splitlinesGo s.data [] false

/-- Does the string contain no line-break character?  (Serialized attribute
values containing one are spread over several physical lines by minidom.) -/
def no_breaks (s : String) : Bool :=
  s.data.all (fun c => !pyLineBreak c)

/-- Python `"\n".join(ls)`. -/
def intercalateNl (ls : List String) : String :=
  match ls with
  | [] => ""
  | l :: rest => rest.foldl (fun acc x => acc ++ "\n" ++ x) l

/-- `pretty_no_decl`: pretty-print, split into lines, drop the leading
`<?xml` declaration line, drop blank lines, join with newlines and append a
final newline.  `none` models the `ExpatError` crash on XML-invalid
attribute values. -/
def pretty_no_decl (x : XmlDoc) : Option String :=
  if doc_values_valid x then
    let lines := pySplitlines (toprettyxml_output x)
    let lines :=
      match lines with
      | [] => []
      | l :: rest => if strStarts l "<?xml" then rest else l :: rest
    some (intercalateNl (lines.filter (fun l => pyStrip l ≠ "")) ++ "\n")
  else none

/-- The exact declaration line `main` prepends. -/
def xml_decl_line : String := "<?xml version=\"1.0\"?>"

/-- The complete text written by `main`:
`"<?xml version=\"1.0\"?>\n"` followed by the body. -/
def xml_text (d : DocAttrs) (rows : List CsvRow) (keep_empty : Bool) :
    Option String :=
  (pretty_no_decl (build_xml d rows keep_empty)).map
    (fun body => xml_decl_line ++ "\n" ++ body)

/-! ## Encoding detection

The text codecs are the external primitive of spec section 1 ("try a fixed
ordered list of text encodings, return the first that decodes without
error").  Only decoding success matters to `detect_encoding`, so each codec
is modelled as a success predicate on byte lists (bytes are naturals below
256).  `utf8_decodes` is the standard UTF-8 well-formedness check (what
Python's strict `utf-8` codec accepts); cp1250 rejects exactly its five
unassigned bytes; latin-1 accepts everything.  The cleaning-stage
`detect_encoding` reads only the first 2000 characters of the file, which
can only make it accept more often; the totality theorem below is
unaffected because the latin-1 fallback accepts regardless. -/

/-- Is the byte a UTF-8 continuation byte (`0x80..0xBF`)? -/
def utf8_cont (b : Nat) : Bool := 0x80 ≤ b && b ≤ 0xBF

/-- Standard UTF-8 validation (overlong forms and surrogates rejected). -/
def utf8_decodes : List Nat → Bool
  | [] => true
  | b :: rest =>
    if b ≤ 0x7F then utf8_decodes rest
    else if 0xC2 ≤ b && b ≤ 0xDF then
      match rest with
      | c1 :: r => utf8_cont c1 && utf8_decodes r
      | [] => false
    else if b = 0xE0 then
      match rest with
      | c1 :: c2 :: r => (0xA0 ≤ c1 && c1 ≤ 0xBF) && utf8_cont c2 && utf8_decodes r
      | _ => false
    else if (0xE1 ≤ b && b ≤ 0xEC) || b = 0xEE || b = 0xEF then
      match rest with
      | c1 :: c2 :: r => utf8_cont c1 && utf8_cont c2 && utf8_decodes r
      | _ => false
    else if b = 0xED then
      match rest with
      | c1 :: c2 :: r => (0x80 ≤ c1 && c1 ≤ 0x9F) && utf8_cont c2 && utf8_decodes r
      | _ => false
    else if b = 0xF0 then
      match rest with
      | c1 :: c2 :: c3 :: r =>
        (0x90 ≤ c1 && c1 ≤ 0xBF) && utf8_cont c2 && utf8_cont c3 && utf8_decodes r
      | _ => false
    else if 0xF1 ≤ b && b ≤ 0xF3 then
      match rest with
      | c1 :: c2 :: c3 :: r =>
        utf8_cont c1 && utf8_cont c2 && utf8_cont c3 && utf8_decodes r
      | _ => false
    else if b = 0xF4 then
      match rest with
      | c1 :: c2 :: c3 :: r =>
        (0x80 ≤ c1 && c1 ≤ 0x8F) && utf8_cont c2 && utf8_cont c3 && utf8_decodes r
      | _ => false
    else false

/-- Drop a leading UTF-8 byte-order mark. -/
def strip_bom (bs : List Nat) : List Nat :=
  match bs with
  | 0xEF :: 0xBB :: 0xBF :: rest => rest
  | _ => bs

/-- Python's `utf-8-sig` codec: optional BOM, then strict UTF-8. -/
def utf8_sig_decodes (bs : List Nat) : Bool :=
  utf8_decodes (strip_bom bs)

/-- cp1250 leaves exactly the bytes 0x81, 0x83, 0x88, 0x90 and 0x98
unassigned; every other byte decodes. -/
def cp1250_decodes (bs : List Nat) : Bool :=
  bs.all (fun b => !(b == 0x81 || b == 0x83 || b == 0x88 || b == 0x90 || b == 0x98))

/-- latin-1 maps every byte to the code point of the same value. -/
def latin1_decodes (_ : List Nat) : Bool := true

/-- `detect_encoding` of `clean_csv_header.py`: try `utf-8-sig`, `cp1250`,
`latin-1` in order; raise if none decodes. -/
def detect_encoding_clean (bs : List Nat) : Except String String :=
  if utf8_sig_decodes bs then .ok "utf-8-sig"
  else if cp1250_decodes bs then .ok "cp1250"
  else if latin1_decodes bs then .ok "latin-1"
  else .error "Nepodarilo sa rozpoznať kódovanie súboru."

/-- `detect_encoding` of `create_xml_file.py`: try `utf-8-sig`, `utf-8`,
`cp1250` in order; fall back to `("utf-8", raw)` unconditionally. -/
def detect_encoding_xml (bs : List Nat) : String × List Nat :=
  if utf8_sig_decodes bs then ("utf-8-sig", bs)
  else if utf8_decodes bs then ("utf-8", bs)
  else if cp1250_decodes bs then ("cp1250", bs)
  else ("utf-8", bs)


/-! ## create_xml_file.py — required-column check -/

/-- One step of `normalize_header`'s `NFKD`-then-ASCII folding, applied after
lowercasing: ASCII characters stay, NBSP decomposes to a space, a Latin
letter with a diacritic decomposes to its base letter (the combining mark is
then dropped by the `ascii`/`ignore` encode), and any other non-ASCII
character is dropped.  The table covers the Latin-1 and Latin Extended-A
lowercase letters whose compatibility decomposition starts with an ASCII
letter; exotic compatibility characters are approximated as dropped. -/
def ascii_fold (c : Char) : List Char :=
  if c.toNat ≤ 0x7F then [c]
  else if c = '\u00A0' then [' ']
  else if ['á', 'à', 'â', 'ã', 'ä', 'å', 'ā', 'ă', 'ą'].contains c then ['a']
  else if ['ç', 'ć', 'ĉ', 'ċ', 'č'].contains c then ['c']
  else if ['ď'].contains c then ['d']
  else if ['è', 'é', 'ê', 'ë', 'ē', 'ĕ', 'ė', 'ę', 'ě'].contains c then ['e']
  else if ['ĝ', 'ğ', 'ġ', 'ģ'].contains c then ['g']
  else if ['ĥ'].contains c then ['h']
  else if ['ì', 'í', 'î', 'ï', 'ĩ', 'ī', 'ĭ', 'į'].contains c then ['i']
  else if ['ĵ'].contains c then ['j']
  else if ['ķ'].contains c then ['k']
  else if ['ĺ', 'ļ', 'ľ', 'ŀ'].contains c then ['l']
  else if ['ñ', 'ń', 'ņ', 'ň'].contains c then ['n']
  else if ['ò', 'ó', 'ô', 'õ', 'ö', 'ō', 'ŏ', 'ő'].contains c then ['o']
  else if ['ŕ', 'ŗ', 'ř'].contains c then ['r']
  else if ['ś', 'ŝ', 'ş', 'š'].contains c then ['s']
  else if ['ţ', 'ť'].contains c then ['t']
  else if ['ù', 'ú', 'û', 'ü', 'ũ', 'ū', 'ŭ', 'ů', 'ű', 'ų'].contains c then ['u']
  else if ['ŵ'].contains c then ['w']
  else if ['ý', 'ÿ', 'ŷ'].contains c then ['y']
  else if ['ź', 'ż', 'ž'].contains c then ['z']
  else []

/-- `normalize_header`: strip, lowercase, then NFKD-decompose and drop
non-ASCII (diacritics vanish). -/
def normalize_header (h : String) : String :=
  String.mk (((pyLowerStr (pyStrip h)).data.map ascii_fold).flatten)

/-- The `CSV_HEADERS` table: internal key and exact display form of the six
required columns, in the source's order. -/
def csv_headers_needed : List (String × String) :=
  [("nazov", "Názov"), ("ucet_md", "Účet MD"), ("ucet_dal", "Účet Dal"),
   ("stred", "Stred."), ("zak", "Zák."), ("cinn", "Činn.")]

/-- Does no header cell normalize to the canonical column's normal form?
(`n not in by_norm` in the source.) -/
def column_unmatched (headers : List String) (canonical : String) : Bool :=
  !(headers.any (fun h => normalize_header h == normalize_header canonical))

/-- Python `", ".join(ls)`. -/
def intercalateComma (ls : List String) : String :=
  match ls with
  | [] => ""
  | l :: rest => rest.foldl (fun acc x => acc ++ ", " ++ x) l

/-- Lexicographic (code-point) comparison of character lists, as Python
compares strings. -/
def str_lt_chars : List Char → List Char → Bool
  | [], [] => false
  | [], _ :: _ => true
  | _ :: _, [] => false
  | a :: as, b :: bs => if a < b then true else if b < a then false else str_lt_chars as bs

/-- Insert into a list sorted by `str_lt_chars` (Python `sorted` on unique
keys). -/
def sort_insert (x : String) : List String → List String
  | [] => [x]
  | y :: rest => if str_lt_chars x.data y.data then x :: y :: rest else y :: sort_insert x rest

/-- Sort strings in Python's `sorted` order. -/
def sort_strings : List String → List String
  | [] => []
  | x :: rest => sort_insert x (sort_strings rest)

/-- The `", ".join(sorted(by_norm.keys()))` part of the error message: the
distinct normalized header forms (first occurrences, as dict keys), sorted. -/
def present_part (headers : List String) : String :=
  intercalateComma (sort_strings ((headers.map normalize_header).eraseDups))

/-- `ensure_required_columns`: fail with the message listing the absent
canonical columns, or return the `key ↦ original header` mapping (a
duplicated normal form resolves to the last header carrying it, as in the
dict comprehension). -/
def ensure_required_columns (headers : List String) :
    Except String (List (String × String)) :=
  let missing := csv_headers_needed.filter (fun kv => column_unmatched headers kv.2)
  if missing.isEmpty then
    .ok (csv_headers_needed.map (fun kv =>
      (kv.1, (headers.filter
        (fun h => normalize_header h == normalize_header kv.2)).getLastD "")))
  else
    .error ("Chýbajúce stĺpce v CSV: " ++ intercalateComma (missing.map (fun kv => kv.2)) ++
      "\n" ++ "Prítomné (normalizované) hlavičky: " ++ present_part headers)

/-- The amount-normalization rule as the specification words it: strip all
spaces; if the value then contains exactly one comma and no period, replace
the comma with a period; otherwise pass the value through unchanged. -/
def to_amount_claimed (v : String) : String :=
  let v2 := String.mk (v.data.filter (fun c => c ≠ ' '))
  if v2.data.count ',' = 1 ∧ v2.data.count '.' = 0 then
    String.mk (v2.data.map (fun c => if c = ',' then '.' else c))
  else v2

/-! ## Order-preservation relation for the cleaning pipeline (C5) -/

/-- `row[0] = n` on a copied row (used by the forward fill). -/
def set_col0 (r : List String) (n : String) : List String := r.set 0 n

/-- `RowsFrom f src out` says: `out` is obtained by walking `src` left to
right and, for each row, either dropping it, emitting its transform `f r`,
or emitting `f r` with column 0 overwritten (a forward fill).  This captures
that the surviving rows of the cleaning pipeline appear in source order. -/
inductive RowsFrom (f : List String → List String) :
    List (List String) → List (List String) → Prop where
  | nil : RowsFrom f [] []
  | drop (r : List String) {src out : List (List String)} :
      RowsFrom f src out → RowsFrom f (r :: src) out
  | emit (r : List String) {src out : List (List String)} :
      RowsFrom f src out → RowsFrom f (r :: src) (f r :: out)
  | fill (r : List String) (n : String) {src out : List (List String)} :
      RowsFrom f src out → RowsFrom f (r :: src) (set_col0 (f r) n :: out)

/-- The per-row effect of the projection stage on the table it is given
(identity when no column matched). -/
def proj_transform (rows1 : List (List String)) : List String → List String :=
  match rows1 with
  | [] => id
  | header :: _ =>
    let keep := keep_indices_of header
    if keep.isEmpty then id else proj_row keep

/-- The per-row effect of the numeric-stripping stage on its data rows. -/
def strip_transform (rows2 : List (List String)) : List String → List String :=
  match rows2 with
  | [] => id
  | header :: _ => strip_row (numeric_indices_of header)

/-- The combined per-data-row transformation of the cleaning pipeline
(projection then numeric stripping), for a given raw table. -/
def clean_row_transform (rows : List (List String)) : List String → List String :=
  match find_header_index rows with
  | .error _ => id
  | .ok h => fun r =>
    strip_transform (select_required_columns (rows.drop h))
      (proj_transform (rows.drop h) r)

/-- The numeric-cell cleanliness of one row: every designated numeric-ish
index that is in range holds a cell containing neither an ordinary space nor
an NBSP character. -/
def row_numeric_clean (nidx : List Nat) (r : List String) : Prop :=
  ∀ i ∈ nidx, ∀ h : i < r.length,
    ' ' ∉ (r.get ⟨i, h⟩).data ∧ '\u00A0' ∉ (r.get ⟨i, h⟩).data

/-! ## Helper lemmas -/

/-- Membership in the projector's kept indices, in terms of the header. -/
theorem mem_keep_indices_iff {header : List String} {i : Nat} :
    i ∈ keep_indices_of header ↔
      ∃ h : i < header.length,
        cell_matches_wanted (normalize_str (header.get ⟨i, h⟩)) = true := by
  unfold keep_indices_of
  simp only [List.mem_map, List.mem_filter]
  constructor
  · rintro ⟨⟨j, name⟩, ⟨hmem, hmatch⟩, rfl⟩
    rw [List.mem_enum_iff_getElem?] at hmem
    simp only [List.getElem?_map] at hmem
    rcases Option.map_eq_some'.mp hmem with ⟨cell, hcell, rfl⟩
    rcases List.getElem?_eq_some_iff.mp hcell with ⟨hlt, rfl⟩
    exact ⟨hlt, by simpa [List.get_eq_getElem] using hmatch⟩
  · rintro ⟨hlt, hmatch⟩
    refine ⟨(i, normalize_str (header.get ⟨i, hlt⟩)), ⟨?_, hmatch⟩, rfl⟩
    rw [List.mem_enum_iff_getElem?]
    simp [List.getElem?_map, List.getElem?_eq_some_iff, hlt, List.get_eq_getElem]

/-- Membership in the numeric-ish indices, in terms of the header. -/
theorem mem_numeric_indices_iff {header : List String} {i : Nat} :
    i ∈ numeric_indices_of header ↔
      ∃ h : i < header.length,
        is_numeric_header (normalize_str (header.get ⟨i, h⟩)) = true := by
  unfold numeric_indices_of
  simp only [List.mem_map, List.mem_filter]
  constructor
  · rintro ⟨⟨j, name⟩, ⟨hmem, hmatch⟩, rfl⟩
    rw [List.mem_enum_iff_getElem?] at hmem
    simp only [List.getElem?_map] at hmem
    rcases Option.map_eq_some'.mp hmem with ⟨cell, hcell, rfl⟩
    rcases List.getElem?_eq_some_iff.mp hcell with ⟨hlt, rfl⟩
    exact ⟨hlt, by simpa [List.get_eq_getElem] using hmatch⟩
  · rintro ⟨hlt, hmatch⟩
    refine ⟨(i, normalize_str (header.get ⟨i, hlt⟩)), ⟨?_, hmatch⟩, rfl⟩
    rw [List.mem_enum_iff_getElem?]
    simp [List.getElem?_map, List.getElem?_eq_some_iff, hlt, List.get_eq_getElem]

/-- The two buffers of `build_xml`'s row loop are the per-row images. -/
theorem build_buffers_eq (rows : List CsvRow) :
    build_buffers rows = (rows.map m_attrs, rows.map d_attrs) := by
  suffices h : ∀ (a b : List ItemAttrs),
      rows.foldl (fun bufs r => (bufs.1 ++ [m_attrs r], bufs.2 ++ [d_attrs r])) (a, b) =
        (a ++ rows.map m_attrs, b ++ rows.map d_attrs) by
    simpa using h [] []
  induction rows with
  | nil => simp
  | cons r rest ih => intro a b; simp [ih, List.append_assoc]

/-! ## C1 — document assembler ordering -/

/-- C1: for every normalized table and document attributes, the assembled
item sequence is all `"M"`-side items in row order followed by all
`"D"`-side items in row order (never interleaved), and the two items derived
from one row agree on `suma`, `os`, `eo` and `text_pud` while taking their
account from Účet MD resp. Účet Dal and their side `"M"` resp. `"D"`. -/
theorem c1_assembler_ordering (d : DocAttrs) (rows : List CsvRow) (keep_empty : Bool) :
    (build_xml d rows keep_empty).items =
      rows.map (fun r => write_item keep_empty (m_attrs r)) ++
        rows.map (fun r => write_item keep_empty (d_attrs r)) ∧
    ∀ r : CsvRow,
      (m_attrs r).suma = (d_attrs r).suma ∧
      (m_attrs r).os = (d_attrs r).os ∧
      (m_attrs r).eo = (d_attrs r).eo ∧
      (m_attrs r).text_pud = (d_attrs r).text_pud ∧
      (m_attrs r).strana = "M" ∧ (d_attrs r).strana = "D" ∧
      (m_attrs r).ucet = pyStrip r.ucet_md ∧ (d_attrs r).ucet = pyStrip r.ucet_dal := by
  constructor
  · show (((build_buffers rows).1 ++ (build_buffers rows).2).map (write_item keep_empty)) = _
    rw [build_buffers_eq]
    simp only [List.map_append, List.map_map]
    rfl
  · intro r
    exact ⟨rfl, rfl, rfl, rfl, rfl, rfl, rfl, rfl⟩

/-! ## C2 — amount normalization -/

/-- C2, counterexample: on `"\t1,2"` the code first trims the tab (Python
`str.strip()` removes all surrounding whitespace, not only spaces), so the
output drops the tab, while the claimed space-stripping-only rule keeps
it. -/
theorem c2_counterexample :
    to_amount "\t1,2" ≠ to_amount_claimed "\t1,2" ∧
    to_amount "\t1,2" = "1.2" ∧ to_amount_claimed "\t1,2" = "\t1.2" := by
  refine ⟨?_, by decide, by decide⟩
  decide

/-- C2, amended: `to_amount` first trims surrounding whitespace of every
kind (Python `strip()`), and on the trimmed value behaves exactly as the
claim states (delete all spaces; replace the comma by a period exactly when
there is one comma and no period).  The claim's three examples hold. -/
theorem c2_amount_normalization_amended (v : String) :
    to_amount v = to_amount_claimed (pyStrip v) ∧
    to_amount "1 234,56" = "1234.56" ∧
    to_amount "1234.56" = "1234.56" ∧
    to_amount "1,2,3" = "1,2,3" :=
  ⟨rfl, by decide, by decide, by decide⟩

/-! ## C3 — Summary Folder forward fill -/

/-- C3, counterexample: with the Activity column at index 3, the row
`["TOTAL_A","","",""]` is not Variant A (its non-empty cells are `{0}`,
not `{0, 3}`), so the Summary Folder emits both rows unchanged: the first
row is not dropped and the second row's empty name is not filled. -/
theorem c3_counterexample :
    forward_fill_from_summary
        [["Názov", "Účet MD", "Účet Dal", "Činn."],
         ["TOTAL_A", "", "", ""], ["", "1", "2", "3"]] 3 =
      some ([["Názov", "Účet MD", "Účet Dal", "Činn."],
             ["TOTAL_A", "", "", ""], ["", "1", "2", "3"]], 0, 0) ∧
    is_summary_variant1 ["TOTAL_A", "", "", ""] 3 = false := by
  constructor
  · decide
  · decide

/-- C3, amended: a Variant A row must carry its subtotal in the Activity
cell.  With `["TOTAL_A","","","1"]` (non-empty cells exactly `{0, 3}`)
followed by `["","1","2","3"]`, the summary row is dropped and the next
row's empty name cell is filled with `"TOTAL_A"` (one fill, one removal). -/
theorem c3_summary_fill_amended :
    forward_fill_from_summary
        [["Názov", "Účet MD", "Účet Dal", "Činn."],
         ["TOTAL_A", "", "", "1"], ["", "1", "2", "3"]] 3 =
      some ([["Názov", "Účet MD", "Účet Dal", "Činn."],
             ["TOTAL_A", "1", "2", "3"]], 1, 1) ∧
    is_summary_variant1 ["TOTAL_A", "", "", "1"] 3 = true := by
  constructor
  · decide
  · decide

/-! ## C7 — projector no-op fallback -/

/-- C7: if no header cell matches any canonical-column pattern, the Column
Projector returns the table unmodified. -/
theorem c7_projector_noop (header : List String) (rest : List (List String))
    (h : ∀ cell ∈ header, cell_matches_wanted (normalize_str cell) = false) :
    select_required_columns (header :: rest) = header :: rest := by
  have hkeep : keep_indices_of header = [] := by
    rw [List.eq_nil_iff_forall_not_mem]
    intro i hi
    rcases mem_keep_indices_iff.mp hi with ⟨hlt, hmatch⟩
    have := h (header.get ⟨i, hlt⟩) (header.get_mem _ _)
    rw [this] at hmatch
    exact Bool.false_ne_true hmatch
  unfold select_required_columns
  simp [hkeep]

/-- C7, witness: a table whose header matches nothing is returned as-is. -/
theorem c7_projector_noop_witness :
    select_required_columns [["X", "Y"], ["1", "2"]] = [["X", "Y"], ["1", "2"]] :=
  c7_projector_noop ["X", "Y"] [["1", "2"]] (by decide)

/-! ## C10 — encoding detection cannot fail -/

/-- C10: the cleaning-stage `detect_encoding` always succeeds (its candidate
list ends with latin-1, which accepts every byte sequence), and the
assembly-stage `detect_encoding` falls back to `("utf-8", raw)` whenever no
candidate decodes, so its error-free result is total. -/
theorem c10_encoding_total :
    (∀ bs : List Nat, ∃ e, detect_encoding_clean bs = .ok e) ∧
    (∀ bs : List Nat, utf8_sig_decodes bs = false → utf8_decodes bs = false →
      cp1250_decodes bs = false → detect_encoding_xml bs = ("utf-8", bs)) := by
  constructor
  · intro bs
    unfold detect_encoding_clean
    by_cases h1 : utf8_sig_decodes bs
    · exact ⟨"utf-8-sig", by simp [h1]⟩
    · by_cases h2 : cp1250_decodes bs
      · exact ⟨"cp1250", by simp [h1, h2]⟩
      · exact ⟨"latin-1", by simp [h1, h2, latin1_decodes]⟩
  · intro bs h1 h2 h3
    simp [detect_encoding_xml, h1, h2, h3]

/-- C10, witness: on the single byte `0x81` (malformed UTF-8, unassigned in
cp1250) the assembly-stage detector falls back to utf-8. -/
theorem c10_encoding_total_witness :
    detect_encoding_xml [0x81] = ("utf-8", [0x81]) ∧
    detect_encoding_clean [0x81] = .ok "latin-1" :=
  ⟨c10_encoding_total.2 [0x81] (by decide) (by decide) (by decide), rfl⟩

/-! ## C4 — header locator two-tier rule -/

/-- C4: the Header Locator returns the first index satisfying the primary
rule whenever one exists (so a primary match at a later index beats a
fallback-only match at an earlier one); only when no row is a primary match
does it return the first fallback match; and it fails with the
`HeaderNotFound` message exactly when no row matches either rule. -/
theorem c4_header_locator (rows : List (List String)) :
    (∀ i (hi : i < rows.length), primary_header_row (rows.get ⟨i, hi⟩) = true →
      (∀ j (hj : j < rows.length), j < i → primary_header_row (rows.get ⟨j, hj⟩) = false) →
      find_header_index rows = .ok i) ∧
    ((∀ j (hj : j < rows.length), primary_header_row (rows.get ⟨j, hj⟩) = false) →
      ∀ i (hi : i < rows.length), fallback_header_row (rows.get ⟨i, hi⟩) = true →
      (∀ j (hj : j < rows.length), j < i → fallback_header_row (rows.get ⟨j, hj⟩) = false) →
      find_header_index rows = .ok i) ∧
    (find_header_index rows = .error headerErrMsg ↔
      ∀ j (hj : j < rows.length), primary_header_row (rows.get ⟨j, hj⟩) = false ∧
        fallback_header_row (rows.get ⟨j, hj⟩) = false) := by
  refine ⟨?_, ?_, ?_⟩
  · intro i hi hp hmin
    have hfind : rows.findIdx? primary_header_row = some i := by
      rw [List.findIdx?_eq_some_iff_getElem]
      exact ⟨hi, by simpa [List.get_eq_getElem] using hp,
        fun j hj => by
          simpa [List.get_eq_getElem] using (hmin j (Nat.lt_trans hj hi) hj)⟩
    unfold find_header_index
    rw [hfind]
  · intro hnone i hi hf hmin
    have h1 : rows.findIdx? primary_header_row = none := by
      rw [List.findIdx?_eq_none_iff]
      intro x hx
      rcases List.mem_iff_get.mp hx with ⟨⟨j, hj⟩, rfl⟩
      exact hnone j hj
    have h2 : rows.findIdx? fallback_header_row = some i := by
      rw [List.findIdx?_eq_some_iff_getElem]
      exact ⟨hi, by simpa [List.get_eq_getElem] using hf,
        fun j hj => by
          simpa [List.get_eq_getElem] using (hmin j (Nat.lt_trans hj hi) hj)⟩
    unfold find_header_index
    rw [h1, h2]
  · constructor
    · intro herr j hj
      unfold find_header_index at herr
      rcases hp : rows.findIdx? primary_header_row with _ | i
      · rcases hf : rows.findIdx? fallback_header_row with _ | i
        · rw [List.findIdx?_eq_none_iff] at hp hf
          exact ⟨hp _ (rows.get_mem _ _), hf _ (rows.get_mem _ _)⟩
        · rw [hp, hf] at herr; cases herr
      · rw [hp] at herr; cases herr
    · intro hall
      have h1 : rows.findIdx? primary_header_row = none := by
        rw [List.findIdx?_eq_none_iff]
        intro x hx
        rcases List.mem_iff_get.mp hx with ⟨⟨j, hj⟩, rfl⟩
        exact (hall j hj).1
      have h2 : rows.findIdx? fallback_header_row = none := by
        rw [List.findIdx?_eq_none_iff]
        intro x hx
        rcases List.mem_iff_get.mp hx with ⟨⟨j, hj⟩, rfl⟩
        exact (hall j hj).2
      unfold find_header_index
      rw [h1, h2]

/-- C4, witness: row 0 matches only the fallback rule, row 1 matches the
primary rule; the locator returns index 1. -/
theorem c4_header_locator_witness :
    find_header_index [["x", "Názov Účet MD Účet Dal"],
        ["Názov", "Účet MD", "Účet Dal"]] = .ok 1 ∧
    fallback_header_row ["x", "Názov Účet MD Účet Dal"] = true ∧
    primary_header_row ["x", "Názov Účet MD Účet Dal"] = false := by
  refine ⟨?_, by decide, by decide⟩
  exact (c4_header_locator [["x", "Názov Účet MD Účet Dal"],
    ["Názov", "Účet MD", "Účet Dal"]]).1 1 (by decide) (by decide)
    (fun j hj hlt => by
      have hj0 : j = 0 := Nat.lt_one_iff.mp hlt
      subst hj0
      show primary_header_row ["x", "Názov Účet MD Účet Dal"] = false
      decide)

/-! ## C8 — projector idempotence -/

/-- `getD` at an in-range index is `get`. -/
theorem getD_eq_get {α : Type} {l : List α} {i : Nat} (d : α) (h : i < l.length) :
    l.getD i d = l.get ⟨i, h⟩ := by
  simp [List.getD_eq_getElem?_getD, List.getElem?_eq_getElem h, List.get_eq_getElem]

/-- A map that fixes every member is the identity. -/
theorem map_eq_self_of {α : Type} {l : List α} {f : α → α} (h : ∀ x ∈ l, f x = x) :
    l.map f = l := by
  induction l with
  | nil => rfl
  | cons a t ih =>
    simp only [List.map_cons, h a (List.mem_cons_self a t),
      ih (fun x hx => h x (List.mem_cons_of_mem a hx))]

/-- When every header cell matches a pattern, the projector keeps every
column. -/
theorem keep_indices_of_all_match {l : List String}
    (h : ∀ cell ∈ l, cell_matches_wanted (normalize_str cell) = true) :
    keep_indices_of l = List.range l.length := by
  unfold keep_indices_of
  have hfilter : (l.map normalize_str).enum.filter (fun pr => cell_matches_wanted pr.2) =
      (l.map normalize_str).enum := by
    apply List.filter_eq_self.mpr
    intro pr hpr
    rw [List.mem_enum_iff_getElem?] at hpr
    have hmem := List.getElem?_mem hpr
    rcases List.mem_map.mp hmem with ⟨cell, hcell, heq⟩
    rw [← heq]
    exact h cell hcell
  rw [hfilter, List.enum_map_fst, List.length_map]

/-- A projected row has one cell per kept column. -/
theorem proj_row_length (keep : List Nat) (r : List String) :
    (proj_row keep r).length = keep.length :=
  List.length_map _ _

/-- Projecting every column in order is the identity. -/
theorem proj_row_range_self (r : List String) :
    proj_row (List.range r.length) r = r := by
  unfold proj_row
  apply List.ext_getElem (by simp)
  intro i h1 h2
  simp only [List.getElem_map, List.getElem_range]
  rw [getD_eq_get "" h2, List.get_eq_getElem]

/-- Reduction of the projector on a non-empty table. -/
theorem select_cons (header : List String) (rest : List (List String)) :
    select_required_columns (header :: rest) =
      if (keep_indices_of header).isEmpty then header :: rest
      else (header :: rest).map (proj_row (keep_indices_of header)) := rfl

/-- C8: the Column Projector is idempotent. -/
theorem c8_projector_idempotent (rows : List (List String)) :
    select_required_columns (select_required_columns rows) =
      select_required_columns rows := by
  match rows with
  | [] => rfl
  | header :: rest =>
    by_cases hk : (keep_indices_of header).isEmpty
    · have h1 : select_required_columns (header :: rest) = header :: rest := by
        rw [select_cons, if_pos hk]
      rw [h1]
      exact h1
    · have hsel : select_required_columns (header :: rest) =
          proj_row (keep_indices_of header) header ::
            rest.map (proj_row (keep_indices_of header)) := by
        rw [select_cons, if_neg hk, List.map_cons]
      have hall : ∀ cell ∈ proj_row (keep_indices_of header) header,
          cell_matches_wanted (normalize_str cell) = true := by
        intro cell hcell
        rcases List.mem_map.mp hcell with ⟨i, hi, rfl⟩
        rcases mem_keep_indices_iff.mp hi with ⟨hlt, hmatch⟩
        rw [getD_eq_get "" hlt]
        exact hmatch
      have hkeep2 : keep_indices_of (proj_row (keep_indices_of header) header) =
          List.range (keep_indices_of header).length := by
        rw [keep_indices_of_all_match hall, proj_row_length]
      have hklen : (keep_indices_of header).length ≠ 0 := by
        intro h0
        exact hk (List.isEmpty_iff.mpr (List.length_eq_zero.mp h0))
      have h2 : select_required_columns
            (proj_row (keep_indices_of header) header ::
              rest.map (proj_row (keep_indices_of header))) =
          proj_row (keep_indices_of header) header ::
            rest.map (proj_row (keep_indices_of header)) := by
        rw [select_cons, hkeep2]
        have hne : ¬ ((List.range (keep_indices_of header).length).isEmpty = true) := by
          intro hemp
          exact hklen (by simpa [List.range_eq_nil] using List.isEmpty_iff.mp hemp)
        rw [if_neg hne]
        apply map_eq_self_of
        intro r hr
        have hrlen : r.length = (keep_indices_of header).length := by
          rcases List.mem_cons.mp hr with rfl | htail
          · exact proj_row_length _ _
          · rcases List.mem_map.mp htail with ⟨r0, _, rfl⟩
            exact proj_row_length _ _
        rw [← hrlen]
        exact proj_row_range_self r
      rw [hsel, h2]

/-! ## C9 — required-column check of the assembly stage -/

/-- The default-carrying last element of a non-empty list is a member. -/
theorem getLastD_mem {α : Type} {l : List α} (d : α) (h : l ≠ []) :
    l.getLastD d ∈ l := by
  rcases l with _ | ⟨a, t⟩
  · exact absurd rfl h
  · exact List.getLast_mem _

/-- C9: `column_unmatched` means no header cell normalizes (case- and
diacritic-insensitively, after trimming) to the canonical column's form;
whenever at least one of the six canonical columns is unmatched the check
fails, with the message listing exactly the absent canonical columns (and
it fails only then, with only that message); and when all six are matched
it returns a six-entry mapping sending each key to an actual header whose
normal form is the canonical one. -/
theorem c9_missing_columns (headers : List String) :
    (∀ c : String, column_unmatched headers c = true ↔
        ∀ h ∈ headers, normalize_header h ≠ normalize_header c) ∧
    ((∃ kv ∈ csv_headers_needed, column_unmatched headers kv.2 = true) →
        ensure_required_columns headers = .error
          ("Chýbajúce stĺpce v CSV: " ++
            intercalateComma ((csv_headers_needed.filter
              (fun kv => column_unmatched headers kv.2)).map (fun kv => kv.2)) ++
            "\n" ++ "Prítomné (normalizované) hlavičky: " ++
            present_part headers)) ∧
    (∀ e, ensure_required_columns headers = .error e →
        (∃ kv ∈ csv_headers_needed, column_unmatched headers kv.2 = true) ∧
        e = "Chýbajúce stĺpce v CSV: " ++
            intercalateComma ((csv_headers_needed.filter
              (fun kv => column_unmatched headers kv.2)).map (fun kv => kv.2)) ++
            "\n" ++ "Prítomné (normalizované) hlavičky: " ++ present_part headers) ∧
    ((∀ kv ∈ csv_headers_needed, column_unmatched headers kv.2 = false) →
        ∃ m, ensure_required_columns headers = .ok m ∧ m.length = 6 ∧
          ∀ p ∈ m, p.2 ∈ headers ∧ ∃ kv ∈ csv_headers_needed, p.1 = kv.1 ∧
            normalize_header p.2 = normalize_header kv.2) := by
  refine ⟨?_, ?_, ?_, ?_⟩
  · intro c
    unfold column_unmatched
    rw [Bool.not_eq_true']
    rw [List.any_eq_false]
    constructor
    · intro hf h hh
      have := hf h hh
      simpa using this
    · intro hf h hh
      simpa using hf h hh
  · rintro ⟨kv, hmem, hpred⟩
    have hne : csv_headers_needed.filter
        (fun kv => column_unmatched headers kv.2) ≠ [] :=
      List.ne_nil_of_mem (List.mem_filter.mpr ⟨hmem, hpred⟩)
    have hm : ¬(csv_headers_needed.filter
        (fun kv => column_unmatched headers kv.2)).isEmpty = true := by
      simpa [List.isEmpty_iff] using hne
    unfold ensure_required_columns
    rw [if_neg hm]
  · intro e he
    unfold ensure_required_columns at he
    by_cases hm : (csv_headers_needed.filter
        (fun kv => column_unmatched headers kv.2)).isEmpty
    · rw [if_pos hm] at he
      cases he
    · rw [if_neg hm] at he
      refine ⟨?_, by injection he with h; exact h.symm⟩
      have hne : csv_headers_needed.filter
          (fun kv => column_unmatched headers kv.2) ≠ [] := by
        intro h0
        exact hm (List.isEmpty_iff.mpr h0)
      rcases List.exists_mem_of_ne_nil _ hne with ⟨kv, hkv⟩
      rcases List.mem_filter.mp hkv with ⟨hmem, hpred⟩
      exact ⟨kv, hmem, hpred⟩
  · intro hall
    have hm : (csv_headers_needed.filter
        (fun kv => column_unmatched headers kv.2)).isEmpty := by
      apply List.isEmpty_iff.mpr
      apply List.filter_eq_nil_iff.mpr
      intro kv hkv hpred
      rw [hall kv hkv] at hpred
      cases hpred
    refine ⟨_, by unfold ensure_required_columns; rw [if_pos hm], by rfl, ?_⟩
    intro p hp
    rcases List.mem_map.mp hp with ⟨kv, hkv, rfl⟩
    have hfilterne : headers.filter
        (fun h => normalize_header h == normalize_header kv.2) ≠ [] := by
      have := hall kv hkv
      unfold column_unmatched at this
      rw [Bool.not_eq_false'] at this
      rcases List.any_eq_true.mp this with ⟨h, hh, hpred⟩
      intro h0
      have := List.filter_eq_nil_iff.mp h0 h hh
      exact this hpred
    have hmem := getLastD_mem "" hfilterne
    rcases List.mem_filter.mp hmem with ⟨hinh, hpred⟩
    exact ⟨hinh, kv, hkv, rfl, by simpa using hpred⟩

/-- C9, witness: with only `Názov` and `Účet MD` present one canonical
column is unmatched, so the check fails, and its message lists exactly the
four absent columns; with all six present it succeeds. -/
theorem c9_missing_columns_witness :
    ((∃ kv ∈ csv_headers_needed, column_unmatched ["Názov", "Účet MD"] kv.2 = true) ∧
      "Chýbajúce stĺpce v CSV: Účet Dal, Stred., Zák., Činn.\nPrítomné (normalizované) hlavičky: nazov, ucet md" =
        "Chýbajúce stĺpce v CSV: " ++
          intercalateComma ((csv_headers_needed.filter
            (fun kv => column_unmatched ["Názov", "Účet MD"] kv.2)).map (fun kv => kv.2)) ++
          "\n" ++ "Prítomné (normalizované) hlavičky: " ++
          present_part ["Názov", "Účet MD"]) ∧
    ensure_required_columns ["Názov", "Účet MD"] = .error
      "Chýbajúce stĺpce v CSV: Účet Dal, Stred., Zák., Činn.\nPrítomné (normalizované) hlavičky: nazov, ucet md" ∧
    (∃ m, ensure_required_columns
        ["Názov", "Účet MD", "Účet Dal", "Stred.", "Zák.", "Činn."] = .ok m ∧
      m.length = 6 ∧
      ∀ p ∈ m, p.2 ∈ ["Názov", "Účet MD", "Účet Dal", "Stred.", "Zák.", "Činn."] ∧
        ∃ kv ∈ csv_headers_needed, p.1 = kv.1 ∧
          normalize_header p.2 = normalize_header kv.2) :=
  ⟨(c9_missing_columns ["Názov", "Účet MD"]).2.2.1 _ rfl,
   (c9_missing_columns ["Názov", "Účet MD"]).2.1 (by decide),
   (c9_missing_columns
     ["Názov", "Účet MD", "Účet Dal", "Stred.", "Zák.", "Činn."]).2.2.2
     (by decide)⟩

/-! ## Splitlines lemmas (for C6) -/

/-- Unfolding `splitlinesGo` on the empty input. -/
theorem splitlinesGo_nil (acc : List Char) (flag : Bool) :
    splitlinesGo [] acc flag =
      if acc.isEmpty then [] else [String.mk acc.reverse] := rfl

/-- Unfolding `splitlinesGo` on a cons. -/
theorem splitlinesGo_cons (c : Char) (rest acc : List Char) (flag : Bool) :
    splitlinesGo (c :: rest) acc flag =
      if flag && c == '\n' then splitlinesGo rest acc false
      else if pyLineBreak c then
        String.mk acc.reverse :: splitlinesGo rest [] (c == '\r')
      else splitlinesGo rest (c :: acc) false := rfl

/-- Every line produced by `splitlinesGo` is free of line-break characters. -/
theorem splitlinesGo_no_break (cs : List Char) : ∀ (acc : List Char) (flag : Bool),
    (∀ c ∈ acc, pyLineBreak c = false) →
    ∀ l ∈ splitlinesGo cs acc flag, ∀ ch ∈ l.data, pyLineBreak ch = false := by
  induction cs with
  | nil =>
    intro acc flag hacc l hl ch hch
    rw [splitlinesGo_nil] at hl
    by_cases he : acc.isEmpty
    · rw [if_pos he] at hl; cases hl
    · rw [if_neg he] at hl
      rcases List.mem_singleton.mp hl with rfl
      exact hacc ch (List.mem_reverse.mp hch)
  | cons c rest ih =>
    intro acc flag hacc l hl ch hch
    rw [splitlinesGo_cons] at hl
    by_cases h1 : (flag && c == '\n') = true
    · rw [if_pos h1] at hl
      exact ih acc false hacc l hl ch hch
    · rw [if_neg h1] at hl
      by_cases h2 : pyLineBreak c = true
      · rw [if_pos h2] at hl
        rcases List.mem_cons.mp hl with rfl | htail
        · exact hacc ch (List.mem_reverse.mp hch)
        · exact ih [] (c == '\r') (fun x hx => absurd hx (List.not_mem_nil x)) l htail ch hch
      · rw [if_neg h2] at hl
        refine ih (c :: acc) false ?_ l hl ch hch
        intro x hx
        rcases List.mem_cons.mp hx with rfl | hxa
        · simpa using h2
        · exact hacc x hxa

/-- Splitting at the first newline after a break-free prefix. -/
theorem splitlinesGo_append_newline (as : List Char) : ∀ (bs acc : List Char),
    (∀ c ∈ as, pyLineBreak c = false) →
    splitlinesGo (as ++ '\n' :: bs) acc false =
      String.mk (acc.reverse ++ as) :: splitlinesGo bs [] false := by
  induction as with
  | nil =>
    intro bs acc h
    rw [List.nil_append, splitlinesGo_cons]
    rw [if_neg (by simp), if_pos (by decide)]
    have hflag : (('\n' : Char) == '\r') = false := by decide
    rw [hflag, List.append_nil]
  | cons c as' ih =>
    intro bs acc h
    have hc : pyLineBreak c = false := h c (List.mem_cons_self _ _)
    rw [List.cons_append, splitlinesGo_cons]
    rw [if_neg (by simp), if_neg (by simp [hc])]
    rw [ih bs (c :: acc) (fun x hx => h x (List.mem_cons_of_mem _ hx))]
    congr 2
    simp

/-- String-level version of `splitlinesGo_append_newline`. -/
theorem pySplitlines_append_newline (a b : String) (h : no_breaks a = true) :
    pySplitlines (a ++ "\n" ++ b) = a :: pySplitlines b := by
  unfold pySplitlines
  have hdata : (a ++ "\n" ++ b).data = a.data ++ '\n' :: b.data := by
    simp [String.data_append]
  rw [hdata, splitlinesGo_append_newline a.data b.data []
    (fun c hc => by simpa using List.all_eq_true.mp h c hc)]
  show String.mk ([].reverse ++ a.data) :: _ = _
  rw [List.reverse_nil, List.nil_append]

/-- Splitting the output of `joinNl` recovers the break-free lines. -/
theorem pySplitlines_joinNl (ls : List String) (h : ∀ l ∈ ls, no_breaks l = true) :
    pySplitlines (joinNl ls) = ls := by
  induction ls with
  | nil => rfl
  | cons l rest ih =>
    have hjoin : joinNl (l :: rest) = l ++ "\n" ++ joinNl rest := rfl
    rw [hjoin, pySplitlines_append_newline l _ (h l (List.mem_cons_self _ _)),
      ih (fun x hx => h x (List.mem_cons_of_mem _ hx))]

/-- Peeling one line off `intercalateNl`. -/
theorem intercalateNl_cons (l : String) (rest : List String) (h : rest ≠ []) :
    intercalateNl (l :: rest) = l ++ "\n" ++ intercalateNl rest := by
  suffices hf : ∀ (rest : List String) (a : String), rest ≠ [] →
      rest.foldl (fun acc x => acc ++ "\n" ++ x) a = a ++ "\n" ++ intercalateNl rest by
    exact hf rest l h
  intro rest
  induction rest with
  | nil => intro a h0; exact absurd rfl h0
  | cons x rest' ih =>
    intro a _
    rw [List.foldl_cons]
    by_cases h' : rest' = []
    · subst h'; rfl
    · rw [ih (a ++ "\n" ++ x) h']
      have hx : intercalateNl (x :: rest') = x ++ "\n" ++ intercalateNl rest' := by
        show rest'.foldl (fun acc y => acc ++ "\n" ++ y) x = _
        exact ih x h'
      rw [hx]
      simp [String.append_assoc]

/-- Splitting a newline-terminated `"\n".join` of break-free lines recovers
the lines. -/
theorem pySplitlines_intercalate (ls : List String) : ls ≠ [] →
    (∀ l ∈ ls, no_breaks l = true) →
    pySplitlines (intercalateNl ls ++ "\n") = ls := by
  induction ls with
  | nil => intro h; exact absurd rfl h
  | cons l rest ih =>
    intro _ h
    by_cases h' : rest = []
    · subst h'
      have : intercalateNl [l] ++ "\n" = l ++ "\n" ++ "" := by
        show l ++ "\n" = l ++ "\n" ++ ""
        rw [String.append_empty]
      rw [this, pySplitlines_append_newline l "" (h l (List.mem_cons_self _ _))]
      rfl
    · rw [intercalateNl_cons l rest h', String.append_assoc (l ++ "\n")]
      rw [show l ++ "\n" ++ (intercalateNl rest ++ "\n") =
        l ++ "\n" ++ (intercalateNl rest ++ "\n") from rfl]
      rw [pySplitlines_append_newline l _ (h l (List.mem_cons_self _ _))]
      rw [ih h' (fun x hx => h x (List.mem_cons_of_mem _ hx))]

/-! ## More helpers for C6 -/

/-- A list whose `dropWhile` is empty satisfies the predicate throughout. -/
theorem all_of_dropWhile_eq_nil {α : Type} {p : α → Bool} {l : List α}
    (h : l.dropWhile p = []) : ∀ x ∈ l, p x = true := by
  induction l with
  | nil => intro x hx; cases hx
  | cons a t ih =>
    intro x hx
    by_cases ha : p a = true
    · rw [List.dropWhile_cons_of_pos ha] at h
      rcases List.mem_cons.mp hx with rfl | hxt
      · exact ha
      · exact ih h x hxt
    · rw [List.dropWhile_cons_of_neg (by simpa using ha)] at h
      cases h

/-- A string with a non-whitespace character does not strip to empty. -/
theorem pyStrip_ne_empty {s : String} {c : Char} (hc : c ∈ s.data)
    (hs : pyIsSpace c = false) : pyStrip s ≠ "" := by
  intro h
  have hnil : pyStripList s.data = [] := congrArg String.data h
  unfold pyStripList at hnil
  rw [List.reverse_eq_nil_iff] at hnil
  have hall := all_of_dropWhile_eq_nil hnil
  have hc2 : c ∈ s.data.dropWhile pyIsSpace := by
    rcases List.mem_append.mp
        ((List.takeWhile_append_dropWhile pyIsSpace s.data) ▸ hc) with htk | hdr
    · exact absurd (List.mem_takeWhile_imp htk) (by simp [hs])
    · exact hdr
  have := hall c (List.mem_reverse.mpr hc2)
  rw [hs] at this
  cases this

/-- One step of the attribute-filtering loop. -/
theorem keep_filter_attrs_cons (ke : Bool) (kv : String × String)
    (kvs : List (String × String)) :
    keep_filter_attrs ke (kv :: kvs) =
      if pyStrip kv.2 = "" ∧ ke = false then keep_filter_attrs ke kvs
      else (kv.1, pyStrip kv.2) :: keep_filter_attrs ke kvs := by
  by_cases h : pyStrip kv.2 = "" ∧ ke = false
  · rw [if_pos h]
    exact List.filterMap_cons_none (by simp [h.1, h.2])
  · rw [if_neg h]
    exact List.filterMap_cons_some (by simp only [if_neg h])

/-- The attribute-filtering loop with `keep_empty` on is a plain
strip-and-emit. -/
theorem keep_filter_attrs_true (kvs : List (String × String)) :
    keep_filter_attrs true kvs = kvs.map (fun kv => (kv.1, pyStrip kv.2)) := by
  induction kvs with
  | nil => rfl
  | cons kv rest ih =>
    rw [keep_filter_attrs_cons, if_neg (by simp), List.map_cons, ih]

/-- The attribute-filtering loop with `keep_empty` off emits exactly the
attributes whose stripped value is non-empty. -/
theorem keep_filter_attrs_false (kvs : List (String × String)) :
    keep_filter_attrs false kvs =
      (kvs.map (fun kv => (kv.1, pyStrip kv.2))).filter (fun kv => ¬ kv.2 = "") := by
  induction kvs with
  | nil => rfl
  | cons kv rest ih =>
    rw [keep_filter_attrs_cons, List.map_cons, List.filter_cons]
    by_cases hv : pyStrip kv.2 = ""
    · rw [if_pos ⟨hv, rfl⟩, if_neg (by simp [hv]), ih]
    · rw [if_neg (by simp [hv]), if_pos (by simp [hv]), ih]

/-- Every attribute emitted by the filtering loop comes from an input
attribute: same name, stripped value. -/
theorem keep_filter_attrs_mem {ke : Bool} {kvs : List (String × String)}
    {kv : String × String} (h : kv ∈ keep_filter_attrs ke kvs) :
    ∃ kv0 ∈ kvs, kv.1 = kv0.1 ∧ kv.2 = pyStrip kv0.2 := by
  induction kvs with
  | nil => cases h
  | cons kv0 rest ih =>
    rw [keep_filter_attrs_cons] at h
    by_cases hc : pyStrip kv0.2 = "" ∧ ke = false
    · rw [if_pos hc] at h
      rcases ih h with ⟨kv1, hm, he⟩
      exact ⟨kv1, List.mem_cons_of_mem _ hm, he⟩
    · rw [if_neg hc] at h
      rcases List.mem_cons.mp h with rfl | htail
      · exact ⟨kv0, List.mem_cons_self _ _, rfl, rfl⟩
      · rcases ih htail with ⟨kv1, hm, he⟩
        exact ⟨kv1, List.mem_cons_of_mem _ hm, he⟩

/-- `no_breaks` distributes over append. -/
theorem no_breaks_append {a b : String} (ha : no_breaks a = true)
    (hb : no_breaks b = true) : no_breaks (a ++ b) = true := by
  unfold no_breaks at ha hb ⊢
  rw [String.data_append, List.all_append, ha, hb]
  rfl

/-- Escaping preserves freedom from line breaks. -/
theorem no_breaks_escape {s : String} (h : no_breaks s = true) :
    no_breaks (escape_attrib s) = true := by
  unfold no_breaks at h ⊢
  unfold escape_attrib
  rw [List.all_eq_true]
  intro c hc
  rcases List.mem_flatten.mp hc with ⟨part, hpart, hcp⟩
  rcases List.mem_map.mp hpart with ⟨c0, hc0, rfl⟩
  unfold esc_char at hcp
  by_cases h1 : c0 = '&'
  · rw [if_pos h1] at hcp
    have hd : c = '&' ∨ c = 'a' ∨ c = 'm' ∨ c = 'p' ∨ c = ';' := by simpa using hcp
    rcases hd with rfl | rfl | rfl | rfl | rfl <;> decide
  · rw [if_neg h1] at hcp
    by_cases h2 : c0 = '<'
    · rw [if_pos h2] at hcp
      have hd : c = '&' ∨ c = 'l' ∨ c = 't' ∨ c = ';' := by simpa using hcp
      rcases hd with rfl | rfl | rfl | rfl <;> decide
    · rw [if_neg h2] at hcp
      by_cases h3 : c0 = '"'
      · rw [if_pos h3] at hcp
        have hd : c = '&' ∨ c = 'q' ∨ c = 'u' ∨ c = 'o' ∨ c = 't' ∨ c = ';' := by
          simpa using hcp
        rcases hd with rfl | rfl | rfl | rfl | rfl | rfl <;> decide
      · rw [if_neg h3] at hcp
        by_cases h4 : c0 = '>'
        · rw [if_pos h4] at hcp
          have hd : c = '&' ∨ c = 'g' ∨ c = 't' ∨ c = ';' := by simpa using hcp
          rcases hd with rfl | rfl | rfl | rfl <;> decide
        · rw [if_neg h4] at hcp
          rcases List.mem_singleton.mp hcp with rfl
          exact List.all_eq_true.mp h _ hc0

/-- Rendering an attribute list whose names and values are free of line
breaks yields a break-free string. -/
theorem no_breaks_render {kvs : List (String × String)}
    (h : ∀ kv ∈ kvs, no_breaks kv.1 = true ∧ no_breaks kv.2 = true) :
    no_breaks (render_attrs kvs) = true := by
  unfold render_attrs
  suffices hgen : ∀ (kvs : List (String × String)) (acc : String),
      (∀ kv ∈ kvs, no_breaks kv.1 = true ∧ no_breaks kv.2 = true) →
      no_breaks acc = true →
      no_breaks (kvs.foldl
        (fun acc kv => acc ++ " " ++ kv.1 ++ "=\"" ++ escape_attrib kv.2 ++ "\"") acc) =
        true by
    exact hgen kvs "" h (by decide)
  intro kvs2
  induction kvs2 with
  | nil => intro acc _ hacc; exact hacc
  | cons kv rest ih =>
    intro acc hkv hacc
    rw [List.foldl_cons]
    refine ih _ (fun p hp => hkv p (List.mem_cons_of_mem _ hp)) ?_
    have h1 := (hkv kv (List.mem_cons_self _ _)).1
    have h2 := (hkv kv (List.mem_cons_self _ _)).2
    exact no_breaks_append (no_breaks_append (no_breaks_append (no_breaks_append
      (no_breaks_append hacc (by decide)) h1) (by decide))
      (no_breaks_escape h2)) (by decide)

/-- A non-empty break-free join ends in a non-break character. -/
theorem intercalateNl_getLast (ls : List String) : ls ≠ [] →
    (∀ l ∈ ls, no_breaks l = true ∧ l ≠ "") →
    ∃ ch, pyLineBreak ch = false ∧ (intercalateNl ls).data.getLast? = some ch := by
  induction ls with
  | nil => intro h; exact absurd rfl h
  | cons l rest ih =>
    intro _ h
    by_cases h' : rest = []
    · subst h'
      have hlne : l.data ≠ [] := by
        intro h0
        exact (h l (List.mem_cons_self _ _)).2 (String.ext h0)
      refine ⟨l.data.getLast hlne, ?_, ?_⟩
      · have := (h l (List.mem_cons_self _ _)).1
        unfold no_breaks at this
        simpa using List.all_eq_true.mp this _ (List.getLast_mem hlne)
      · show l.data.getLast? = _
        rw [List.getLast?_eq_getLast _ hlne]
    · rcases ih h' (fun x hx => h x (List.mem_cons_of_mem _ hx)) with ⟨ch, hch, hlast⟩
      refine ⟨ch, hch, ?_⟩
      rw [intercalateNl_cons l rest h']
      rw [String.data_append, List.getLast?_append, hlast]
      rfl

/-- A string starts with itself in front of any suffix. -/
theorem startsWithChars_append : ∀ (as bs : List Char),
    startsWithChars (as ++ bs) as = true
  | [], bs => by cases bs <;> rfl
  | a :: as', bs => by
    show (a == a && startsWithChars (as' ++ bs) as') = true
    rw [startsWithChars_append as' bs, beq_self_eq_true]
    rfl

/-- `strStarts (a ++ b) a` always holds. -/
theorem strStarts_prefix (a b : String) : strStarts (a ++ b) a = true := by
  unfold strStarts
  rw [String.data_append]
  exact startsWithChars_append a.data b.data

/-- Every line of a Python `splitlines` result is break-free. -/
theorem pySplitlines_no_breaks {s l : String} (h : l ∈ pySplitlines s) :
    no_breaks l = true := by
  unfold no_breaks
  rw [List.all_eq_true]
  intro c hc
  have := splitlinesGo_no_break s.data [] false
    (fun x hx => absurd hx (List.not_mem_nil x)) l h c hc
  simp [this]

/-- Attribute names on the document element are break-free (they are among
the six fixed `DOC_ATTRS` names). -/
theorem doc_attr_names_no_breaks {ke : Bool} {d : DocAttrs} {kv : String × String}
    (h : kv ∈ keep_filter_attrs ke (doc_order_attrs d)) : no_breaks kv.1 = true := by
  rcases keep_filter_attrs_mem h with ⟨kv0, hm, h1, _⟩
  have hd : kv0.1 = "cislo_ud" ∨ kv0.1 = "datum_ud" ∨ kv0.1 = "mandant_id" ∨
      kv0.1 = "druh_ud" ∨ kv0.1 = "typ_ud" ∨ kv0.1 = "text_ud" := by
    rcases (by simpa [doc_order_attrs] using hm :
        kv0 = ("cislo_ud", d.cislo_ud) ∨ kv0 = ("datum_ud", d.datum_ud) ∨
        kv0 = ("mandant_id", d.mandant_id) ∨ kv0 = ("druh_ud", d.druh_ud) ∨
        kv0 = ("typ_ud", d.typ_ud) ∨ kv0 = ("text_ud", d.text_ud)) with
      rfl | rfl | rfl | rfl | rfl | rfl <;> simp
  rw [h1]
  rcases hd with he | he | he | he | he | he <;> rw [he] <;> decide

/-- Attribute names on an item element are break-free (they are among the
six fixed `ORDER` names). -/
theorem item_attr_names_no_breaks {ke : Bool} {a : ItemAttrs} {kv : String × String}
    (h : kv ∈ write_item ke a) : no_breaks kv.1 = true := by
  rcases keep_filter_attrs_mem h with ⟨kv0, hm, h1, _⟩
  have hd : kv0.1 = "suma" ∨ kv0.1 = "ucet" ∨ kv0.1 = "strana" ∨
      kv0.1 = "os" ∨ kv0.1 = "eo" ∨ kv0.1 = "text_pud" := by
    rcases (by simpa [item_order_attrs] using hm :
        kv0 = ("suma", a.suma) ∨ kv0 = ("ucet", a.ucet) ∨
        kv0 = ("strana", a.strana) ∨ kv0 = ("os", a.os) ∨
        kv0 = ("eo", a.eo) ∨ kv0 = ("text_pud", a.text_pud)) with
      rfl | rfl | rfl | rfl | rfl | rfl <;> simp
  rw [h1]
  rcases hd with he | he | he | he | he | he <;> rw [he] <;> decide

/-- Structure of a successful serializer run: the output is the declaration
line, then a newline-joined non-empty list of break-free, non-blank lines
(the pretty-printed lines that survived the blank filter), and a final
newline. -/
theorem xml_text_structure (d : DocAttrs) (rows : List CsvRow) (keep_empty : Bool)
    (out : String) (hout : xml_text d rows keep_empty = some out) :
    ∃ kept : List String,
      kept ≠ [] ∧
      (∀ l ∈ kept, no_breaks l = true ∧ pyStrip l ≠ "") ∧
      out = xml_decl_line ++ "\n" ++ (intercalateNl kept ++ "\n") ∧
      kept = (pySplitlines (joinNl
          ((pretty_lines_raw (build_xml d rows keep_empty)).tail))).filter
        (fun l => pyStrip l ≠ "") := by
  unfold xml_text at hout
  rcases Option.map_eq_some'.mp hout with ⟨body, hbody, hfout⟩
  unfold pretty_no_decl at hbody
  by_cases hval : doc_values_valid (build_xml d rows keep_empty) = true
  · rw [if_pos hval] at hbody
    have hbody2 := Option.some.inj hbody
    have h1 : toprettyxml_output (build_xml d rows keep_empty) =
        "<?xml version=\"1.0\" ?>" ++ "\n" ++
          joinNl ((pretty_lines_raw (build_xml d rows keep_empty)).tail) := rfl
    have h2 : pySplitlines (toprettyxml_output (build_xml d rows keep_empty)) =
        "<?xml version=\"1.0\" ?>" ::
          pySplitlines (joinNl ((pretty_lines_raw (build_xml d rows keep_empty)).tail)) := by
      rw [h1]
      exact pySplitlines_append_newline _ _ (by decide)
    have hLD : (match pySplitlines (toprettyxml_output (build_xml d rows keep_empty)) with
        | [] => ([] : List String)
        | l :: rest => if strStarts l "<?xml" then rest else l :: rest) =
        pySplitlines (joinNl ((pretty_lines_raw (build_xml d rows keep_empty)).tail)) := by
      rw [h2]
      show (if strStarts "<?xml version=\"1.0\" ?>" "<?xml" then _ else _) = _
      rw [if_pos (by decide)]
    rw [hLD] at hbody2
    refine ⟨(pySplitlines (joinNl
        ((pretty_lines_raw (build_xml d rows keep_empty)).tail))).filter
        (fun l => pyStrip l ≠ ""), ?_, ?_, ?_, rfl⟩
    · have h4 : pySplitlines (joinNl
          ((pretty_lines_raw (build_xml d rows keep_empty)).tail)) =
          "<uctovne_doklady>" ::
            pySplitlines (joinNl
              ((pretty_lines_raw (build_xml d rows keep_empty)).tail).tail) := by
        show pySplitlines ("<uctovne_doklady>" ++ "\n" ++ _) = _
        exact pySplitlines_append_newline _ _ (by decide)
      rw [h4, List.filter_cons_of_pos (by decide)]
      exact List.cons_ne_nil _ _
    · intro l hl
      rcases List.mem_filter.mp hl with ⟨hmem, hpred⟩
      exact ⟨pySplitlines_no_breaks hmem, of_decide_eq_true hpred⟩
    · rw [← hfout, ← hbody2]
  · rw [if_neg hval] at hbody
    cases hbody

/-! ## C6 — serializer contract -/

/-- C6: the serializer (i) emits every attribute with its stripped value
under keep-empty mode and otherwise omits exactly the attributes whose
stripped value is empty; (ii) its output starts with the exact declaration
line `<?xml version="1.0"?>` (no encoding attribute), has no blank line,
and ends in a single trailing newline; and (iii) when no attribute value
carries a line-break character, the output lines are exactly the
declaration followed by the two-spaces-per-nesting-level pretty-printed
element lines. -/
theorem c6_serializer_contract (d : DocAttrs) (rows : List CsvRow) (keep_empty : Bool) :
    (∀ kvs : List (String × String),
        keep_filter_attrs true kvs = kvs.map (fun kv => (kv.1, pyStrip kv.2)) ∧
        keep_filter_attrs false kvs =
          (kvs.map (fun kv => (kv.1, pyStrip kv.2))).filter (fun kv => ¬ kv.2 = "")) ∧
    (build_xml d rows keep_empty).doc_attrs =
      keep_filter_attrs keep_empty (doc_order_attrs d) ∧
    (∀ out, xml_text d rows keep_empty = some out →
      strStarts out (xml_decl_line ++ "\n") = true ∧
      (∀ l ∈ pySplitlines out, l ≠ "") ∧
      (∃ s : String, out = s ++ "\n" ∧ s.data.getLast? ≠ some '\n') ∧
      (((build_xml d rows keep_empty).doc_attrs.all (fun kv => no_breaks kv.2) &&
          (build_xml d rows keep_empty).items.all
            (fun it => it.all (fun kv => no_breaks kv.2))) = true →
        pySplitlines out =
          xml_decl_line :: "<uctovne_doklady>" ::
            ((match (build_xml d rows keep_empty).items with
              | [] => ["  <uctovny_doklad" ++
                  render_attrs (build_xml d rows keep_empty).doc_attrs ++ "/>"]
              | _ :: _ =>
                ("  <uctovny_doklad" ++
                    render_attrs (build_xml d rows keep_empty).doc_attrs ++ ">") ::
                  (build_xml d rows keep_empty).items.map
                    (fun it => "    <polozka_ud" ++ render_attrs it ++ "/>") ++
                  ["  </uctovny_doklad>"]) ++
              ["</uctovne_doklady>"]))) := by
  refine ⟨fun kvs => ⟨keep_filter_attrs_true kvs, keep_filter_attrs_false kvs⟩, rfl, ?_⟩
  intro out hout
  rcases xml_text_structure d rows keep_empty out hout with ⟨kept, hne, hmem, hout_eq, hkept⟩
  have hsplit : pySplitlines out = xml_decl_line :: kept := by
    rw [hout_eq]
    rw [pySplitlines_append_newline _ _ (by decide)]
    rw [pySplitlines_intercalate kept hne (fun l hl => (hmem l hl).1)]
  refine ⟨?_, ?_, ?_, ?_⟩
  · rw [hout_eq]
    exact strStarts_prefix _ _
  · intro l hl
    rw [hsplit] at hl
    rcases List.mem_cons.mp hl with rfl | hl2
    · decide
    · intro he
      exact (hmem l hl2).2 (by rw [he]; rfl)
  · refine ⟨xml_decl_line ++ "\n" ++ intercalateNl kept, ?_, ?_⟩
    · rw [hout_eq]
      rw [String.append_assoc (xml_decl_line ++ "\n") (intercalateNl kept) "\n"]
    · rcases intercalateNl_getLast kept hne (fun l hl =>
          ⟨(hmem l hl).1, fun he => (hmem l hl).2 (by rw [he]; rfl)⟩) with ⟨ch, hch, hlast⟩
      rw [String.data_append, List.getLast?_append, hlast, Option.or_some]
      intro heq
      have hch2 : ch = '\n' := Option.some.inj heq
      rw [hch2] at hch
      exact absurd hch (by decide)
  · intro hnb
    rcases Bool.and_eq_true_iff.mp hnb with ⟨hnb1, hnb2⟩
    have htail_mem : ∀ l ∈ (pretty_lines_raw (build_xml d rows keep_empty)).tail,
        l = "<uctovne_doklady>" ∨ l = "</uctovne_doklady>" ∨
        l = "  <uctovny_doklad" ++
            render_attrs (build_xml d rows keep_empty).doc_attrs ++ "/>" ∨
        l = "  <uctovny_doklad" ++
            render_attrs (build_xml d rows keep_empty).doc_attrs ++ ">" ∨
        (∃ it ∈ (build_xml d rows keep_empty).items,
          l = "    <polozka_ud" ++ render_attrs it ++ "/>") ∨
        l = "  </uctovny_doklad>" := by
      intro l hl
      rw [show (pretty_lines_raw (build_xml d rows keep_empty)).tail =
        "<uctovne_doklady>" ::
          ((match (build_xml d rows keep_empty).items with
            | [] => ["  <uctovny_doklad" ++
                render_attrs (build_xml d rows keep_empty).doc_attrs ++ "/>"]
            | _ :: _ =>
              ("  <uctovny_doklad" ++
                  render_attrs (build_xml d rows keep_empty).doc_attrs ++ ">") ::
                (build_xml d rows keep_empty).items.map
                  (fun it => "    <polozka_ud" ++ render_attrs it ++ "/>") ++
                ["  </uctovny_doklad>"]) ++
            ["</uctovne_doklady>"]) from rfl] at hl
      rcases List.mem_cons.mp hl with rfl | hl2
      · exact Or.inl rfl
      rcases List.mem_append.mp hl2 with hm | hcl
      · rcases hx : (build_xml d rows keep_empty).items with _ | ⟨a, t⟩
        · rw [hx] at hm
          rcases List.mem_singleton.mp hm with rfl
          exact Or.inr (Or.inr (Or.inl rfl))
        · rw [hx] at hm
          rcases List.mem_cons.mp hm with rfl | hm2
          · exact Or.inr (Or.inr (Or.inr (Or.inl rfl)))
          rcases List.mem_append.mp hm2 with hmap | hclose2
          · rcases List.mem_map.mp hmap with ⟨it, hit, rfl⟩
            exact Or.inr (Or.inr (Or.inr (Or.inr (Or.inl
              ⟨it, hit, rfl⟩))))
          · rcases List.mem_singleton.mp hclose2 with rfl
            exact Or.inr (Or.inr (Or.inr (Or.inr (Or.inr rfl))))
      · rcases List.mem_singleton.mp hcl with rfl
        exact Or.inr (Or.inl rfl)
    have hrender : no_breaks
        (render_attrs (build_xml d rows keep_empty).doc_attrs) = true := by
      apply no_breaks_render
      intro kv hkv
      exact ⟨doc_attr_names_no_breaks hkv, List.all_eq_true.mp hnb1 kv hkv⟩
    have hitem_render : ∀ it ∈ (build_xml d rows keep_empty).items,
        no_breaks (render_attrs it) = true := by
      intro it hit
      apply no_breaks_render
      intro kv hkv
      have hnames : no_breaks kv.1 = true := by
        rcases List.mem_map.mp hit with ⟨a, _, rfl⟩
        exact item_attr_names_no_breaks hkv
      exact ⟨hnames, List.all_eq_true.mp (List.all_eq_true.mp hnb2 it hit) kv hkv⟩
    have hall : ∀ l ∈ (pretty_lines_raw (build_xml d rows keep_empty)).tail,
        no_breaks l = true := by
      intro l hl
      rcases htail_mem l hl with rfl | rfl | rfl | rfl | ⟨it, hit, rfl⟩ | rfl
      · decide
      · decide
      · exact no_breaks_append (no_breaks_append (by decide) hrender) (by decide)
      · exact no_breaks_append (no_breaks_append (by decide) hrender) (by decide)
      · exact no_breaks_append (no_breaks_append (by decide)
          (hitem_render it hit)) (by decide)
      · decide
    have hstrip : ∀ l ∈ (pretty_lines_raw (build_xml d rows keep_empty)).tail,
        pyStrip l ≠ "" := by
      intro l hl
      rcases htail_mem l hl with rfl | rfl | rfl | rfl | ⟨it, hit, rfl⟩ | rfl
      · decide
      · decide
      · refine pyStrip_ne_empty (c := '<') ?_ (by decide)
        rw [String.data_append, String.data_append]
        exact List.mem_append_left _ (List.mem_append_left _ (by decide))
      · refine pyStrip_ne_empty (c := '<') ?_ (by decide)
        rw [String.data_append, String.data_append]
        exact List.mem_append_left _ (List.mem_append_left _ (by decide))
      · refine pyStrip_ne_empty (c := '<') ?_ (by decide)
        rw [String.data_append, String.data_append]
        exact List.mem_append_left _ (List.mem_append_left _ (by decide))
      · decide
    have hS : pySplitlines (joinNl
        ((pretty_lines_raw (build_xml d rows keep_empty)).tail)) =
        (pretty_lines_raw (build_xml d rows keep_empty)).tail :=
      pySplitlines_joinNl _ hall
    have hkeep_all : ((pretty_lines_raw (build_xml d rows keep_empty)).tail).filter
        (fun l => pyStrip l ≠ "") =
        (pretty_lines_raw (build_xml d rows keep_empty)).tail :=
      List.filter_eq_self.mpr (fun l hl => decide_eq_true (hstrip l hl))
    rw [hsplit, hkept, hS, hkeep_all]
    rfl

/-- C6, witness: a document with `text_ud` empty serialized without
keep-empty omits that attribute; the output starts with the exact
declaration and splits into the expected indented lines; with keep-empty
the empty attribute is emitted with an empty value. -/
theorem c6_serializer_contract_witness :
    strStarts
      "<?xml version=\"1.0\"?>\n<uctovne_doklady>\n  <uctovny_doklad cislo_ud=\"250901\" datum_ud=\"30.09.2025\" mandant_id=\"1\" druh_ud=\"ID UCTO\" typ_ud=\"I\">\n    <polozka_ud suma=\"100.50\" ucet=\"221\" strana=\"M\" os=\"10\" eo=\"20\" text_pud=\"Mzdy\"/>\n    <polozka_ud suma=\"100.50\" ucet=\"521\" strana=\"D\" os=\"10\" eo=\"20\" text_pud=\"Mzdy\"/>\n  </uctovny_doklad>\n</uctovne_doklady>\n"
      (xml_decl_line ++ "\n") = true ∧
    pySplitlines
      "<?xml version=\"1.0\"?>\n<uctovne_doklady>\n  <uctovny_doklad cislo_ud=\"250901\" datum_ud=\"30.09.2025\" mandant_id=\"1\" druh_ud=\"ID UCTO\" typ_ud=\"I\">\n    <polozka_ud suma=\"100.50\" ucet=\"221\" strana=\"M\" os=\"10\" eo=\"20\" text_pud=\"Mzdy\"/>\n    <polozka_ud suma=\"100.50\" ucet=\"521\" strana=\"D\" os=\"10\" eo=\"20\" text_pud=\"Mzdy\"/>\n  </uctovny_doklad>\n</uctovne_doklady>\n" =
      ["<?xml version=\"1.0\"?>", "<uctovne_doklady>",
       "  <uctovny_doklad cislo_ud=\"250901\" datum_ud=\"30.09.2025\" mandant_id=\"1\" druh_ud=\"ID UCTO\" typ_ud=\"I\">",
       "    <polozka_ud suma=\"100.50\" ucet=\"221\" strana=\"M\" os=\"10\" eo=\"20\" text_pud=\"Mzdy\"/>",
       "    <polozka_ud suma=\"100.50\" ucet=\"521\" strana=\"D\" os=\"10\" eo=\"20\" text_pud=\"Mzdy\"/>",
       "  </uctovny_doklad>", "</uctovne_doklady>"] ∧
    keep_filter_attrs true
        (doc_order_attrs ⟨"250901", "30.09.2025", "1", "ID UCTO", "I", ""⟩) =
      [("cislo_ud", "250901"), ("datum_ud", "30.09.2025"), ("mandant_id", "1"),
       ("druh_ud", "ID UCTO"), ("typ_ud", "I"), ("text_ud", "")] := by
  have h := (c6_serializer_contract ⟨"250901", "30.09.2025", "1", "ID UCTO", "I", ""⟩
      [⟨"Mzdy", "221", "521", "10", "20", "100,50"⟩] false).2.2
      "<?xml version=\"1.0\"?>\n<uctovne_doklady>\n  <uctovny_doklad cislo_ud=\"250901\" datum_ud=\"30.09.2025\" mandant_id=\"1\" druh_ud=\"ID UCTO\" typ_ud=\"I\">\n    <polozka_ud suma=\"100.50\" ucet=\"221\" strana=\"M\" os=\"10\" eo=\"20\" text_pud=\"Mzdy\"/>\n    <polozka_ud suma=\"100.50\" ucet=\"521\" strana=\"D\" os=\"10\" eo=\"20\" text_pud=\"Mzdy\"/>\n  </uctovny_doklad>\n</uctovne_doklady>\n"
      (by decide)
  exact ⟨h.1, h.2.2.2 (by decide), by decide⟩

/-! ## String lemmas for C5 -/

/-- `dropWhile` of an all-satisfying list is empty. -/
theorem dropWhile_eq_nil_of_all {α : Type} {p : α → Bool} {l : List α}
    (h : ∀ x ∈ l, p x = true) : l.dropWhile p = [] := by
  induction l with
  | nil => rfl
  | cons a t ih =>
    rw [List.dropWhile_cons_of_pos (h a (List.mem_cons_self _ _))]
    exact ih (fun x hx => h x (List.mem_cons_of_mem _ hx))

/-- `pyStripList` is empty exactly when everything is whitespace. -/
theorem pyStripList_eq_nil_iff {l : List Char} :
    pyStripList l = [] ↔ ∀ c ∈ l, pyIsSpace c = true := by
  constructor
  · intro h c hc
    unfold pyStripList at h
    rw [List.reverse_eq_nil_iff] at h
    have hall := all_of_dropWhile_eq_nil h
    rcases List.mem_append.mp
        ((List.takeWhile_append_dropWhile pyIsSpace l) ▸ hc) with htk | hdr
    · exact List.mem_takeWhile_imp htk
    · exact hall c (List.mem_reverse.mpr hdr)
  · intro h
    unfold pyStripList
    rw [dropWhile_eq_nil_of_all h]
    rfl

/-- A character of the strip result is a character of the input. -/
theorem mem_pyStripList {l : List Char} {c : Char} (h : c ∈ pyStripList l) :
    c ∈ l := by
  unfold pyStripList at h
  have h1 := List.mem_reverse.mp h
  have h2 := (List.dropWhile_sublist pyIsSpace).subset h1
  have h3 := List.mem_reverse.mp h2
  exact (List.dropWhile_sublist pyIsSpace).subset h3

/-- The NBSP-to-space map leaves a NBSP-free string alone. -/
theorem nbsp_map_eq_self {l : List Char} (h : '\u00A0' ∉ l) :
    l.map (fun c => if c = '\u00A0' then ' ' else c) = l :=
  map_eq_self_of (fun c hc => by
    have hne : c ≠ '\u00A0' := fun he => h (he ▸ hc)
    rw [if_neg hne])

/-- The NBSP-to-space map produces no NBSP. -/
theorem nbsp_not_mem_map {l : List Char} :
    '\u00A0' ∉ l.map (fun c => if c = '\u00A0' then ' ' else c) := by
  intro h
  rcases List.mem_map.mp h with ⟨c0, _, heq⟩
  by_cases h0 : c0 = '\u00A0'
  · rw [if_pos h0] at heq
    exact absurd heq (by decide)
  · rw [if_neg h0] at heq
    exact h0 heq

/-- `clean_str` is empty exactly when the string is all whitespace. -/
theorem clean_str_eq_empty_iff {s : String} :
    clean_str s = "" ↔ ∀ c ∈ s.data, pyIsSpace c = true := by
  unfold clean_str
  have hdata : pyStrip (String.mk (s.data.map
      (fun c => if c = '\u00A0' then ' ' else c))) = "" ↔
      pyStripList (s.data.map (fun c => if c = '\u00A0' then ' ' else c)) = [] := by
    constructor
    · intro h; exact congrArg String.data h
    · intro h
      show String.mk (pyStripList (s.data.map
        (fun c => if c = '\u00A0' then ' ' else c))) = ""
      rw [h]
  rw [hdata, pyStripList_eq_nil_iff]
  constructor
  · intro h c hc
    have h2 := h (if c = '\u00A0' then ' ' else c) (List.mem_map_of_mem _ hc)
    by_cases h0 : c = '\u00A0'
    · subst h0; decide
    · rwa [if_neg h0] at h2
  · intro h c hc
    rcases List.mem_map.mp hc with ⟨c0, hc0, rfl⟩
    by_cases h0 : c0 = '\u00A0'
    · subst h0; decide
    · rw [if_neg h0]; exact h c0 hc0

/-- Dropping a prefix twice is dropping it once. -/
theorem dropWhile_dropWhile {α : Type} (p : α → Bool) (l : List α) :
    (l.dropWhile p).dropWhile p = l.dropWhile p := by
  rcases h : l.dropWhile p with _ | ⟨c, t⟩
  · rfl
  · have h2 := List.head?_dropWhile_not p l
    rw [h] at h2
    have hc : p c = false := h2
    rw [List.dropWhile_cons_of_neg (by simp [hc])]

/-- The head of the strip result is not whitespace. -/
theorem pyStripList_head_not_space {l : List Char} {c : Char}
    (hc : (pyStripList l).head? = some c) : pyIsSpace c = false := by
  have hS : pyStripList l =
      ((l.dropWhile pyIsSpace).reverse.dropWhile pyIsSpace).reverse := rfl
  rw [hS, List.head?_reverse] at hc
  have hBne : (l.dropWhile pyIsSpace).reverse.dropWhile pyIsSpace ≠ [] := by
    intro h0; rw [h0] at hc; cases hc
  rcases List.dropWhile_suffix (p := pyIsSpace)
      (l := (l.dropWhile pyIsSpace).reverse) with ⟨ys, hys⟩
  have hrev : (l.dropWhile pyIsSpace).reverse.getLast? = some c := by
    rw [← hys, List.getLast?_append, hc, Option.or_some]
  rw [List.getLast?_reverse] at hrev
  have hAne : l.dropWhile pyIsSpace ≠ [] := by
    intro h0; rw [h0] at hrev; cases hrev
  have hhd := List.head_dropWhile_not pyIsSpace l hAne
  rw [List.head?_eq_head hAne] at hrev
  rw [← Option.some.inj hrev]
  exact hhd

/-- The last element of the strip result is not whitespace. -/
theorem pyStripList_getLast_not_space {l : List Char} {c : Char}
    (hc : (pyStripList l).getLast? = some c) : pyIsSpace c = false := by
  have hS : pyStripList l =
      ((l.dropWhile pyIsSpace).reverse.dropWhile pyIsSpace).reverse := rfl
  rw [hS, List.getLast?_reverse] at hc
  have hne : (l.dropWhile pyIsSpace).reverse.dropWhile pyIsSpace ≠ [] := by
    intro h0; rw [h0] at hc; cases hc
  have hhd := List.head_dropWhile_not pyIsSpace
    (l.dropWhile pyIsSpace).reverse hne
  rw [List.head?_eq_head hne] at hc
  rw [← Option.some.inj hc]
  exact hhd

/-- Stripping is idempotent. -/
theorem pyStripList_idem (l : List Char) :
    pyStripList (pyStripList l) = pyStripList l := by
  rcases hS : pyStripList l with _ | ⟨c, t⟩
  · rfl
  · have hhead : pyIsSpace c = false := by
      apply pyStripList_head_not_space (l := l)
      rw [hS]; rfl
    have hlast : ∀ d, (c :: t).getLast? = some d → pyIsSpace d = false := by
      intro d hd
      apply pyStripList_getLast_not_space (l := l)
      rw [hS]; exact hd
    unfold pyStripList
    rw [List.dropWhile_cons_of_neg (by simp [hhead])]
    have hgl : ∃ d, (c :: t).getLast? = some d := by
      rcases List.getLast?_eq_getLast (c :: t) (List.cons_ne_nil _ _) with hsome
      exact ⟨_, hsome⟩
    rcases hgl with ⟨d, hd⟩
    have hdns := hlast d hd
    have hrevhead : (c :: t).reverse.head? = some d := by
      rw [List.head?_reverse]; exact hd
    rcases hrev : (c :: t).reverse with _ | ⟨e, u⟩
    · rw [hrev] at hrevhead; cases hrevhead
    · rw [hrev] at hrevhead
      have : e = d := by
        have := Option.some.inj hrevhead.symm
        exact this.symm
      subst this
      rw [List.dropWhile_cons_of_neg (by simp [hdns])]
      rw [← hrev, List.reverse_reverse]

/-! ## clean_str lemmas for C5 -/

/-- Where a character of `clean_str s` comes from: it is a character of `s`,
or it is the space an NBSP of `s` was mapped to. -/
theorem clean_str_char_mem {s : String} {c : Char}
    (h : c ∈ (clean_str s).data) :
    c ∈ s.data ∨ (c = ' ' ∧ '\u00A0' ∈ s.data) := by
  have h1 : c ∈ s.data.map (fun c => if c = '\u00A0' then ' ' else c) :=
    mem_pyStripList h
  rcases List.mem_map.mp h1 with ⟨c0, hc0, heq⟩
  by_cases h0 : c0 = '\u00A0'
  · subst h0
    rw [if_pos rfl] at heq
    exact Or.inr ⟨heq.symm, hc0⟩
  · rw [if_neg h0] at heq
    exact Or.inl (heq ▸ hc0)

/-- `clean_str` never produces an NBSP. -/
theorem clean_str_no_nbsp (s : String) : '\u00A0' ∉ (clean_str s).data := by
  intro h
  exact nbsp_not_mem_map (mem_pyStripList h)

/-- `clean_str` is idempotent. -/
theorem clean_str_idem (s : String) : clean_str (clean_str s) = clean_str s := by
  have hn : '\u00A0' ∉ (clean_str s).data := clean_str_no_nbsp s
  show pyStrip (String.mk ((clean_str s).data.map
    (fun c => if c = '\u00A0' then ' ' else c))) = clean_str s
  rw [nbsp_map_eq_self hn]
  exact congrArg String.mk (pyStripList_idem _)

/-- `clean_str` preserves the absence of spaces and NBSPs. -/
theorem clean_str_preserves_clean {s : String}
    (hs : ' ' ∉ s.data) (hn : '\u00A0' ∉ s.data) :
    ' ' ∉ (clean_str s).data ∧ '\u00A0' ∉ (clean_str s).data := by
  refine ⟨fun h => ?_, clean_str_no_nbsp s⟩
  rcases clean_str_char_mem h with h1 | ⟨_, h2⟩
  · exact hs h1
  · exact hn h2

/-- The numeric-cell scrub leaves neither spaces nor NBSPs behind. -/
theorem remove_spaces_nbsp_clean (s : String) :
    ' ' ∉ (remove_spaces_nbsp s).data ∧
      '\u00A0' ∉ (remove_spaces_nbsp s).data := by
  constructor
  · intro h
    have h1 := List.of_mem_filter h
    simp at h1
  · intro h
    exact nbsp_not_mem_map (List.mem_of_mem_filter h)

/-! ## Row-predicate lemmas for C5 -/

/-- Membership in the non-empty cell indices, in terms of the row. -/
theorem mem_nonempty_cells_iff {row : List String} {i : Nat} :
    i ∈ nonempty_cells row ↔
      ∃ h : i < row.length, clean_str (row.get ⟨i, h⟩) ≠ "" := by
  unfold nonempty_cells
  simp only [List.mem_map, List.mem_filter]
  constructor
  · rintro ⟨⟨j, cell⟩, ⟨hmem, hmatch⟩, rfl⟩
    rw [List.mem_enum_iff_getElem?] at hmem
    rcases List.getElem?_eq_some_iff.mp hmem with ⟨hlt, heq⟩
    refine ⟨hlt, ?_⟩
    rw [List.get_eq_getElem]
    rw [show row[(j, cell).1] = (j, cell).2 from heq]
    simpa using hmatch
  · rintro ⟨hlt, hmatch⟩
    refine ⟨(i, row.get ⟨i, hlt⟩), ⟨?_, by simpa using hmatch⟩, rfl⟩
    rw [List.mem_enum_iff_getElem?]
    simp [List.getElem?_eq_some_iff, hlt, List.get_eq_getElem]

/-- `is_empty_row` as a proposition. -/
theorem is_empty_row_iff {row : List String} :
    is_empty_row row = true ↔ ∀ c ∈ row, clean_str c = "" := by
  unfold is_empty_row
  simp [List.all_eq_true]

/-- Variant-A recognition as a proposition. -/
theorem variant1_iff {row : List String} {cinn : Nat} :
    is_summary_variant1 row cinn = true ↔
      (nonempty_cells row ≠ [] ∧
        (∀ j ∈ nonempty_cells row, j = 0 ∨ j = cinn) ∧
        0 ∈ nonempty_cells row ∧ cinn ∈ nonempty_cells row) := by
  have hdef : is_summary_variant1 row cinn =
      (if (nonempty_cells row).isEmpty = true then false
       else (nonempty_cells row).all (fun j => j == 0 || j == cinn) &&
         (nonempty_cells row).contains 0 &&
         (nonempty_cells row).contains cinn) := rfl
  rw [hdef]
  by_cases h : nonempty_cells row = []
  · simp [h]
  · rw [if_neg (by simpa [List.isEmpty_iff] using h)]
    simp [Bool.and_eq_true_iff, List.all_eq_true, List.contains, h,
      List.elem_iff, and_assoc]

/-- Variant-B recognition as a proposition. -/
theorem variant2_iff {row : List String} {cinn : Nat} :
    is_summary_variant2 row cinn = true ↔
      (nonempty_cells row ≠ [] ∧
        (∀ j ∈ nonempty_cells row, j = cinn) ∧
        cinn ∈ nonempty_cells row) := by
  have hdef : is_summary_variant2 row cinn =
      (if (nonempty_cells row).isEmpty = true then false
       else (nonempty_cells row).all (fun j => j == cinn) &&
         (nonempty_cells row).contains cinn) := rfl
  rw [hdef]
  by_cases h : nonempty_cells row = []
  · simp [h]
  · rw [if_neg (by simpa [List.isEmpty_iff] using h)]
    simp [Bool.and_eq_true_iff, List.all_eq_true, List.contains, h,
      List.elem_iff]

/-- Filling the blank first cell of a surviving (non-blank, non-summary)
row with a cleaned non-empty group name cannot create a summary row. -/
theorem fill_safe {c m : String} {cells : List String} {cinn : Nat}
    (hc : clean_str c = "")
    (hne : is_empty_row (c :: cells) = false)
    (hv2 : is_summary_variant2 (c :: cells) cinn = false)
    (hm : clean_str m = m) (hm0 : m ≠ "") :
    is_summary_variant1 (m :: cells) cinn = false ∧
    is_summary_variant2 (m :: cells) cinn = false := by
  have hex : ∃ j, ∃ hj : j < cells.length,
      clean_str (cells.get ⟨j, hj⟩) ≠ "" := by
    by_contra hno
    push_neg at hno
    have hall : is_empty_row (c :: cells) = true := by
      rw [is_empty_row_iff]
      intro x hx
      rcases List.mem_cons.mp hx with rfl | hx2
      · exact hc
      · rcases List.mem_iff_get.mp hx2 with ⟨⟨j, hj⟩, rfl⟩
        exact hno j hj
    rw [hall] at hne
    cases hne
  rcases hex with ⟨j0, hj0, hj0ne⟩
  have hmemM : (j0 + 1) ∈ nonempty_cells (m :: cells) :=
    mem_nonempty_cells_iff.mpr ⟨Nat.succ_lt_succ hj0, hj0ne⟩
  have hmemC : (j0 + 1) ∈ nonempty_cells (c :: cells) :=
    mem_nonempty_cells_iff.mpr ⟨Nat.succ_lt_succ hj0, hj0ne⟩
  have h0M : 0 ∈ nonempty_cells (m :: cells) := by
    refine mem_nonempty_cells_iff.mpr ⟨Nat.succ_pos _, ?_⟩
    show clean_str m ≠ ""
    rw [hm]
    exact hm0
  have h0C : 0 ∉ nonempty_cells (c :: cells) := by
    rw [mem_nonempty_cells_iff]
    rintro ⟨h, hP⟩
    exact hP hc
  constructor
  · cases hv1 : is_summary_variant1 (m :: cells) cinn
    · rfl
    · exfalso
      rcases variant1_iff.mp hv1 with ⟨_, hall1, _, _⟩
      have hcinn : cinn = j0 + 1 := by
        rcases hall1 _ hmemM with h | h
        · exact absurd h (Nat.succ_ne_zero _)
        · exact h.symm
      have hV2 : is_summary_variant2 (c :: cells) cinn = true := by
        rw [variant2_iff]
        refine ⟨List.ne_nil_of_mem hmemC, ?_, ?_⟩
        · intro j hj
          rcases j with _ | k
          · exact absurd hj h0C
          · have hjM : (k + 1) ∈ nonempty_cells (m :: cells) := by
              rcases mem_nonempty_cells_iff.mp hj with ⟨hk, hkne⟩
              exact mem_nonempty_cells_iff.mpr ⟨hk, hkne⟩
            rcases hall1 _ hjM with h | h
            · exact absurd h (Nat.succ_ne_zero _)
            · exact h
        · rw [hcinn]
          exact hmemC
      rw [hV2] at hv2
      cases hv2
  · cases hv2' : is_summary_variant2 (m :: cells) cinn
    · rfl
    · exfalso
      rcases variant2_iff.mp hv2' with ⟨_, hall2, _⟩
      have h0 : (0 : Nat) = cinn := hall2 _ h0M
      have h1 : j0 + 1 = cinn := hall2 _ hmemM
      rw [← h0] at h1
      exact Nat.succ_ne_zero _ h1

/-! ## strip_row lemmas for C5 -/

/-- `strip_row` preserves row length. -/
theorem strip_row_length (nidx : List Nat) (r : List String) :
    (strip_row nidx r).length = r.length := by
  induction nidx generalizing r with
  | nil => rfl
  | cons j rest ih =>
    have hstep : strip_row (j :: rest) r = strip_row rest
        (if j < r.length then r.set j (remove_spaces_nbsp (r.getD j "")) else r) := rfl
    rw [hstep, ih]
    by_cases h : j < r.length
    · rw [if_pos h, List.length_set]
    · rw [if_neg h]

/-- `strip_row` does not change cells at indices outside `nidx`. -/
theorem strip_row_getElem_not_mem {nidx : List Nat} {i : Nat} (h : i ∉ nidx)
    (r : List String) : (strip_row nidx r)[i]? = r[i]? := by
  induction nidx generalizing r with
  | nil => rfl
  | cons j rest ih =>
    have hne : i ≠ j := fun he => h (he ▸ List.mem_cons_self j rest)
    have hrest : i ∉ rest := fun hr => h (List.mem_cons_of_mem _ hr)
    have hstep : strip_row (j :: rest) r = strip_row rest
        (if j < r.length then r.set j (remove_spaces_nbsp (r.getD j "")) else r) := rfl
    rw [hstep, ih hrest]
    by_cases hj : j < r.length
    · rw [if_pos hj, List.getElem?_set_ne (Ne.symm hne)]
    · rw [if_neg hj]

/-- After `strip_row`, every in-range designated cell has been scrubbed of
spaces and NBSPs. -/
theorem strip_row_clean {nidx : List Nat} (hnd : nidx.Nodup) (r : List String) :
    row_numeric_clean nidx (strip_row nidx r) := by
  induction nidx generalizing r with
  | nil => intro i hi; cases hi
  | cons j rest ih =>
    rcases List.nodup_cons.mp hnd with ⟨hj, hrest⟩
    intro i hi h
    rcases List.mem_cons.mp hi with rfl | hmem
    · have hlen : (strip_row (i :: rest) r).length = r.length :=
        strip_row_length _ _
      have hir : i < r.length := hlen ▸ h
      have hv : (strip_row (i :: rest) r)[i]? =
          some (remove_spaces_nbsp (r.getD i "")) := by
        have hstep : strip_row (i :: rest) r = strip_row rest
            (if i < r.length then r.set i (remove_spaces_nbsp (r.getD i "")) else r) := rfl
        rw [hstep, strip_row_getElem_not_mem hj, if_pos hir,
          List.getElem?_set_self']
        simp [List.getElem?_eq_getElem hir]
      have hget : (strip_row (i :: rest) r).get ⟨i, h⟩ =
          remove_spaces_nbsp (r.getD i "") :=
        Option.some.inj ((List.getElem?_eq_getElem h).symm.trans hv)
      rw [hget]
      exact remove_spaces_nbsp_clean _
    · exact ih hrest
        (if j < r.length then r.set j (remove_spaces_nbsp (r.getD j "")) else r)
        i hmem h

/-- The designated numeric indices of a header are pairwise distinct. -/
theorem numeric_indices_nodup (header : List String) :
    (numeric_indices_of header).Nodup := by
  have h1 : List.Sublist
      (((header.map normalize_str).enum.filter
        (fun pr => is_numeric_header pr.2)).map Prod.fst)
      ((header.map normalize_str).enum.map Prod.fst) :=
    (List.filter_sublist _).map Prod.fst
  rw [List.enum_map_fst] at h1
  show List.Nodup (((header.map normalize_str).enum.filter
    (fun pr => is_numeric_header pr.2)).map Prod.fst)
  exact (List.nodup_range _).sublist h1

/-! ## RowsFrom lemmas for C5 -/

/-- Tails of sublists are sublists. -/
theorem tail_sublist_tail {α : Type} {l1 l2 : List α}
    (h : List.Sublist l1 l2) : List.Sublist l1.tail l2.tail := by
  cases h with
  | slnil => exact List.Sublist.slnil
  | cons a h => exact (List.tail_sublist _).trans h
  | cons₂ a h => exact h

/-- Mapping a transform over a table is a `RowsFrom` derivation. -/
theorem rowsFrom_map (f : List String → List String) (l : List (List String)) :
    RowsFrom f l (l.map f) := by
  induction l with
  | nil => exact RowsFrom.nil
  | cons a t ih => exact RowsFrom.emit a ih

/-- Dropping the head and mapping the rest is a `RowsFrom` derivation. -/
theorem rowsFrom_tail_map (f : List String → List String)
    (l : List (List String)) : RowsFrom f l (l.tail.map f) := by
  cases l with
  | nil => exact RowsFrom.nil
  | cons a t => exact RowsFrom.drop a (rowsFrom_map f t)

/-- A `RowsFrom` derivation survives prepending dropped source rows. -/
theorem rowsFrom_prepend (f : List String → List String)
    (pre : List (List String)) {l out : List (List String)}
    (h : RowsFrom f l out) : RowsFrom f (pre ++ l) out := by
  induction pre with
  | nil => exact h
  | cons a t ih => exact RowsFrom.drop a ih

/-- A `RowsFrom` derivation from a sublist lifts to the full list. -/
theorem rowsFrom_superlist {g : List String → List String}
    {l1 l2 : List (List String)} (hs : List.Sublist l1 l2) :
    ∀ {out : List (List String)}, RowsFrom g l1 out → RowsFrom g l2 out := by
  induction hs with
  | slnil => intro out h; exact h
  | cons a hsub ih => intro out h; exact RowsFrom.drop a (ih h)
  | cons₂ a hsub ih =>
    intro out h
    cases h with
    | drop _ h2 => exact RowsFrom.drop a (ih h2)
    | emit _ h2 => exact RowsFrom.emit a (ih h2)
    | fill _ n h2 => exact RowsFrom.fill a n (ih h2)

/-- `RowsFrom` is preserved by passing to a sublist of the output. -/
theorem rowsFrom_sublist_out {f : List String → List String}
    {src out : List (List String)} (h : RowsFrom f src out) :
    ∀ {o : List (List String)}, List.Sublist o out → RowsFrom f src o := by
  induction h with
  | nil =>
    intro o hs
    rw [List.sublist_nil.mp hs]
    exact RowsFrom.nil
  | drop r _ ih => intro o hs; exact RowsFrom.drop r (ih hs)
  | emit r _ ih =>
    intro o hs
    cases hs with
    | cons _ hs2 => exact RowsFrom.drop r (ih hs2)
    | cons₂ _ hs2 => exact RowsFrom.emit r (ih hs2)
  | fill r n _ ih =>
    intro o hs
    cases hs with
    | cons _ hs2 => exact RowsFrom.drop r (ih hs2)
    | cons₂ _ hs2 => exact RowsFrom.fill r n (ih hs2)

/-- Composing a transforming derivation with an identity derivation on its
output (fills collapse by overwriting column 0 again). -/
theorem rowsFrom_comp {f : List String → List String}
    {src mid : List (List String)} (h1 : RowsFrom f src mid) :
    ∀ {out : List (List String)}, RowsFrom id mid out → RowsFrom f src out := by
  induction h1 with
  | nil =>
    intro out h2
    cases h2
    exact RowsFrom.nil
  | drop r _ ih => intro out h2; exact RowsFrom.drop r (ih h2)
  | emit r _ ih =>
    intro out h2
    cases h2 with
    | drop _ h3 => exact RowsFrom.drop r (ih h3)
    | emit _ h3 => exact RowsFrom.emit r (ih h3)
    | fill _ n h3 => exact RowsFrom.fill r n (ih h3)
  | fill r n _ ih =>
    intro out h2
    cases h2 with
    | drop _ h3 => exact RowsFrom.drop r (ih h3)
    | emit _ h3 => exact RowsFrom.fill r n (ih h3)
    | fill _ m h3 =>
      have heq : set_col0 (id (set_col0 (f r) n)) m = set_col0 (f r) m := by
        show ((f r).set 0 n).set 0 m = (f r).set 0 m
        rw [List.set_set]
      rw [heq]
      exact RowsFrom.fill r m (ih h3)

/-! ## Pipeline-structure lemmas for C5 -/

/-- The projection stage is the per-row transform mapped over the table. -/
theorem select_eq_map (rows : List (List String)) :
    select_required_columns rows = rows.map (proj_transform rows) := by
  cases rows with
  | nil => rfl
  | cons header rest =>
    by_cases h : (keep_indices_of header).isEmpty = true
    · have h1 : select_required_columns (header :: rest) = header :: rest := by
        show (if (keep_indices_of header).isEmpty = true then header :: rest
          else (header :: rest).map (proj_row (keep_indices_of header))) =
          header :: rest
        rw [if_pos h]
      have h2 : proj_transform (header :: rest) = id := by
        show (if (keep_indices_of header).isEmpty = true then id
          else proj_row (keep_indices_of header)) = id
        rw [if_pos h]
      rw [h1, h2, List.map_id]
    · have h1 : select_required_columns (header :: rest) =
          (header :: rest).map (proj_row (keep_indices_of header)) := by
        show (if (keep_indices_of header).isEmpty = true then header :: rest
          else (header :: rest).map (proj_row (keep_indices_of header))) = _
        rw [if_neg h]
      have h2 : proj_transform (header :: rest) =
          proj_row (keep_indices_of header) := by
        show (if (keep_indices_of header).isEmpty = true then id
          else proj_row (keep_indices_of header)) = _
        rw [if_neg h]
      rw [h1, h2]

/-- A character of an intercalation by `[;]` is a semicolon or a character
of one of the pieces. -/
theorem mem_intercalate_semi (ls : List (List Char)) {c : Char}
    (h : c ∈ List.intercalate [';'] ls) : c = ';' ∨ ∃ l ∈ ls, c ∈ l := by
  induction ls with
  | nil => simp [List.intercalate] at h
  | cons a t ih =>
    cases t with
    | nil =>
      have h1 : c ∈ a := by simpa [List.intercalate] using h
      exact Or.inr ⟨a, List.mem_cons_self a [], h1⟩
    | cons b t2 =>
      have heq : List.intercalate [';'] (a :: b :: t2) =
          a ++ [';'] ++ List.intercalate [';'] (b :: t2) := by
        simp [List.intercalate, List.flatten, List.append_assoc]
      rw [heq] at h
      rcases List.mem_append.mp h with h1 | h2
      · rcases List.mem_append.mp h1 with h3 | h4
        · exact Or.inr ⟨a, List.mem_cons_self a _, h3⟩
        · exact Or.inl (by simpa using h4)
      · rcases ih h2 with h3 | ⟨l, hl, hc⟩
        · exact Or.inl h3
        · exact Or.inr ⟨l, List.mem_cons_of_mem _ hl, hc⟩

/-- A character of the semicolon-joined row is a semicolon or a character
of one of the cells. -/
theorem joinSemi_char_mem {row : List String} {c : Char}
    (h : c ∈ (joinSemi row).data) :
    c = ';' ∨ ∃ cell ∈ row, c ∈ cell.data := by
  rcases mem_intercalate_semi (row.map String.data) h with h1 | ⟨l, hl, hc⟩
  · exact Or.inl h1
  · rcases List.mem_map.mp hl with ⟨cell, hcell, rfl⟩
    exact Or.inr ⟨cell, hcell, hc⟩

/-- `startsWithChars` implies the pattern characters appear in the list. -/
theorem startsWithChars_subset : ∀ {l p : List Char},
    startsWithChars l p = true → ∀ c ∈ p, c ∈ l := by
  intro l p
  induction p generalizing l with
  | nil => intro _ c hc; cases hc
  | cons b bs ih =>
    intro h c hc
    cases l with
    | nil => cases h
    | cons a as =>
      rcases Bool.and_eq_true_iff.mp h with ⟨hab, hrest⟩
      rcases List.mem_cons.mp hc with rfl | hc2
      · have : a = c := by simpa using hab
        exact this ▸ List.mem_cons_self a as
      · exact List.mem_cons_of_mem _ (ih hrest c hc2)

/-- `containsChars` implies the pattern characters appear in the list. -/
theorem containsChars_subset : ∀ {l p : List Char},
    containsChars l p = true → ∀ c ∈ p, c ∈ l := by
  intro l
  induction l with
  | nil =>
    intro p h c hc
    have : p = [] := List.isEmpty_iff.mp h
    subst this
    cases hc
  | cons a t ih =>
    intro p h c hc
    rcases Bool.or_eq_true_iff.mp h with h1 | h2
    · exact startsWithChars_subset h1 c hc
    · exact List.mem_cons_of_mem _ (ih h2 c hc)

/-- A row satisfying the primary header rule is not blank. -/
theorem primary_nonblank {row : List String}
    (h : primary_header_row row = true) : is_empty_row row = false := by
  cases row with
  | nil => cases h
  | cons c rest =>
    rcases Bool.and_eq_true_iff.mp h with ⟨h1, _⟩
    rcases Bool.and_eq_true_iff.mp h1 with ⟨hc, _⟩
    have hcs : clean_str c = "Názov" := by simpa using hc
    cases hrow : is_empty_row (c :: rest)
    · rfl
    · exfalso
      have := is_empty_row_iff.mp hrow c (List.mem_cons_self _ _)
      rw [hcs] at this
      exact absurd this (by decide)

/-- A row satisfying the fallback header rule is not blank. -/
theorem fallback_nonblank {row : List String}
    (h : fallback_header_row row = true) : is_empty_row row = false := by
  have hcontains : strContains (joinSemi row) "Názov" = true :=
    (Bool.and_eq_true_iff.mp (Bool.and_eq_true_iff.mp h).1).1
  have hN : 'N' ∈ (joinSemi row).data :=
    containsChars_subset hcontains 'N' (by decide)
  rcases joinSemi_char_mem hN with h1 | ⟨cell, hcell, hc⟩
  · exact absurd h1 (by decide)
  · cases hrow : is_empty_row row
    · rfl
    · exfalso
      have hmt := is_empty_row_iff.mp hrow cell hcell
      have hne : clean_str cell ≠ "" := by
        rw [Ne, clean_str_eq_empty_iff]
        intro hall
        exact absurd (hall 'N' hc) (by decide)
      exact hne hmt

/-- A header with at least one matched column projects to a non-blank row. -/
theorem proj_header_nonblank {header : List String}
    (hk : keep_indices_of header ≠ []) :
    is_empty_row (proj_row (keep_indices_of header) header) = false := by
  rcases List.exists_mem_of_ne_nil _ hk with ⟨i, hi⟩
  rcases mem_keep_indices_iff.mp hi with ⟨hlt, hmatch⟩
  have hmem : header.get ⟨i, hlt⟩ ∈ proj_row (keep_indices_of header) header := by
    unfold proj_row
    exact List.mem_map.mpr ⟨i, hi, (getD_eq_get _ hlt).symm ▸ rfl⟩
  cases hrow : is_empty_row (proj_row (keep_indices_of header) header)
  · rfl
  · exfalso
    have hempty := is_empty_row_iff.mp hrow _ hmem
    have hmw : cell_matches_wanted
        (pyLowerStr (clean_str (header.get ⟨i, hlt⟩))) = true := hmatch
    rw [hempty] at hmw
    exact absurd hmw (by decide)

/-- The per-row projector applied to a non-blank header row yields a
non-blank row. -/
theorem proj_transform_header_nonblank {ah : List String}
    (t : List (List String)) (hr : is_empty_row ah = false) :
    is_empty_row (proj_transform (ah :: t) ah) = false := by
  by_cases h : (keep_indices_of ah).isEmpty = true
  · have heq : proj_transform (ah :: t) ah = ah := by
      show (if (keep_indices_of ah).isEmpty = true then id
        else proj_row (keep_indices_of ah)) ah = ah
      rw [if_pos h]
      rfl
    rw [heq]
    exact hr
  · have heq : proj_transform (ah :: t) ah =
        proj_row (keep_indices_of ah) ah := by
      show (if (keep_indices_of ah).isEmpty = true then id
        else proj_row (keep_indices_of ah)) ah = _
      rw [if_neg h]
    rw [heq]
    exact proj_header_nonblank (by simpa [List.isEmpty_iff] using h)

/-! ## Forward-fill loop lemmas for C5 -/

/-- Step equation of `ff_loop` on a Variant-A summary row. -/
theorem ff_loop_cons_v1 {cinn : Nat} {row : List String}
    {rest : List (List String)} {cg : Option String}
    (h : is_summary_variant1 row cinn = true) :
    ff_loop cinn (row :: rest) cg =
      (ff_loop cinn rest (some (clean_str (row.headD "")))).map
        (fun pr => (pr.1, pr.2.1, pr.2.2 + 1)) := by
  simp only [ff_loop]
  rw [if_pos h]

/-- Step equation of `ff_loop` on a Variant-B summary row. -/
theorem ff_loop_cons_v2 {cinn : Nat} {row : List String}
    {rest : List (List String)} {cg : Option String}
    (h1 : is_summary_variant1 row cinn = false)
    (h2 : is_summary_variant2 row cinn = true) :
    ff_loop cinn (row :: rest) cg =
      (ff_loop cinn rest cg).map (fun pr => (pr.1, pr.2.1, pr.2.2 + 1)) := by
  simp only [ff_loop]
  rw [if_neg (by simp [h1]), if_pos h2]

/-- Step equation of `ff_loop` on a blank-named row fillable from a pending
group name. -/
theorem ff_loop_cons_fill {cinn : Nat} {c : String} {cells : List String}
    {rest : List (List String)} {n : String}
    (h1 : is_summary_variant1 (c :: cells) cinn = false)
    (h2 : is_summary_variant2 (c :: cells) cinn = false)
    (hfc : clean_str c = "") (hn : n ≠ "") :
    ff_loop cinn ((c :: cells) :: rest) (some n) =
      (ff_loop cinn rest (some n)).map
        (fun pr => ((n :: cells) :: pr.1, pr.2.1 + 1, pr.2.2)) := by
  simp only [ff_loop]
  rw [if_neg (by simp [h1]), if_neg (by simp [h2]),
    if_pos (show clean_str ((c :: cells).headD "") = "" ∧
      truthyOpt (some n) = true from ⟨hfc, by simpa [truthyOpt] using hn⟩)]
  have hcg2 : (if clean_str ((c :: cells).headD "") ≠ "" then (none : Option String)
      else some n) = some n := if_neg (fun hx => hx hfc)
  show (ff_loop cinn rest (if clean_str ((c :: cells).headD "") ≠ ""
      then (none : Option String) else some n)).map
    (fun pr => ((n :: cells) :: pr.1, pr.2.1 + 1, pr.2.2)) = _
  rw [hcg2]

/-- Step equation of `ff_loop` on an ordinary kept row. -/
theorem ff_loop_cons_keep {cinn : Nat} {row : List String}
    {rest : List (List String)} {cg : Option String}
    (h1 : is_summary_variant1 row cinn = false)
    (h2 : is_summary_variant2 row cinn = false)
    (hnf : ¬(clean_str (row.headD "") = "" ∧ truthyOpt cg = true)) :
    ff_loop cinn (row :: rest) cg =
      (ff_loop cinn rest
        (if clean_str (row.headD "") ≠ "" then none else cg)).map
        (fun pr => (row :: pr.1, pr.2.1, pr.2.2)) := by
  simp only [ff_loop]
  rw [if_neg (by simp [h1]), if_neg (by simp [h2]), if_neg hnf]

/-- The forward-fill loop: on summary-free, non-blank, numerically clean
input rows (and a cleaned non-empty pending name), every output row is
non-blank, not a summary row and numerically clean, and the output rows are
the input rows in order, each either kept or with column 0 overwritten. -/
theorem ff_loop_spec (cinn : Nat) (nidx : List Nat) :
    ∀ (rs : List (List String)) (cg : Option String)
      (res : List (List String) × Nat × Nat),
      ff_loop cinn rs cg = some res →
      (∀ r ∈ rs, is_empty_row r = false) →
      (∀ r ∈ rs, row_numeric_clean nidx r) →
      (∀ m, cg = some m → clean_str m = m ∧ m ≠ "" ∧
        (0 ∈ nidx → ' ' ∉ m.data ∧ '\u00A0' ∉ m.data)) →
      (∀ r ∈ res.1,
        is_empty_row r = false ∧
        is_summary_variant1 r cinn = false ∧
        is_summary_variant2 r cinn = false ∧
        row_numeric_clean nidx r) ∧
      RowsFrom id rs res.1 := by
  intro rs
  induction rs with
  | nil =>
    intro cg res hff _ _ _
    have hres : res = (([] : List (List String)), 0, 0) :=
      (Option.some.inj hff).symm
    subst hres
    exact ⟨fun r hr => absurd hr (List.not_mem_nil r), RowsFrom.nil⟩
  | cons row rest ih =>
    intro cg res hff h1 h2 hcg
    have h1r : ∀ r ∈ rest, is_empty_row r = false :=
      fun r hr => h1 r (List.mem_cons_of_mem _ hr)
    have h2r : ∀ r ∈ rest, row_numeric_clean nidx r :=
      fun r hr => h2 r (List.mem_cons_of_mem _ hr)
    cases hv1 : is_summary_variant1 row cinn with
    | true =>
      rw [ff_loop_cons_v1 hv1] at hff
      rcases hinner : ff_loop cinn rest (some (clean_str (row.headD ""))) with _ | pr
      · rw [hinner] at hff; cases hff
      · rw [hinner] at hff
        have hres : res = (pr.1, pr.2.1, pr.2.2 + 1) := (Option.some.inj hff).symm
        subst hres
        rcases variant1_iff.mp hv1 with ⟨_, _, h0mem, _⟩
        rcases mem_nonempty_cells_iff.mp h0mem with ⟨h0lt, h0ne⟩
        have hhead : row.headD "" = row.get ⟨0, h0lt⟩ := by
          cases row with
          | nil => exact absurd h0lt (Nat.lt_irrefl 0)
          | cons a t => rfl
        have hcg2 : ∀ m, some (clean_str (row.headD "")) = some m →
            clean_str m = m ∧ m ≠ "" ∧
              (0 ∈ nidx → ' ' ∉ m.data ∧ '\u00A0' ∉ m.data) := by
          intro m hm
          rw [← Option.some.inj hm]
          refine ⟨clean_str_idem _, ?_, ?_⟩
          · rw [hhead]; exact h0ne
          · intro h0n
            have hclean := h2 row (List.mem_cons_self _ _) 0 h0n h0lt
            rw [hhead]
            exact clean_str_preserves_clean hclean.1 hclean.2
        have hIH := ih (some (clean_str (row.headD ""))) pr hinner h1r h2r hcg2
        exact ⟨hIH.1, RowsFrom.drop row hIH.2⟩
    | false =>
      cases hv2 : is_summary_variant2 row cinn with
      | true =>
        rw [ff_loop_cons_v2 hv1 hv2] at hff
        rcases hinner : ff_loop cinn rest cg with _ | pr
        · rw [hinner] at hff; cases hff
        · rw [hinner] at hff
          have hres : res = (pr.1, pr.2.1, pr.2.2 + 1) := (Option.some.inj hff).symm
          subst hres
          have hIH := ih cg pr hinner h1r h2r hcg
          exact ⟨hIH.1, RowsFrom.drop row hIH.2⟩
      | false =>
        by_cases hfc : clean_str (row.headD "") = "" ∧ truthyOpt cg = true
        · rcases hfc with ⟨hfc1, hfc2⟩
          rcases cg with _ | n
          · simp [truthyOpt] at hfc2
          · have hn : n ≠ "" := by simpa [truthyOpt] using hfc2
            cases row with
            | nil => exact absurd (h1 [] (List.mem_cons_self _ _)) (by decide)
            | cons c cells =>
              rw [ff_loop_cons_fill hv1 hv2 hfc1 hn] at hff
              rcases hinner : ff_loop cinn rest (some n) with _ | pr
              · rw [hinner] at hff; cases hff
              · rw [hinner] at hff
                have hres : res = ((n :: cells) :: pr.1, pr.2.1 + 1, pr.2.2) :=
                  (Option.some.inj hff).symm
                subst hres
                have hcgn := hcg n rfl
                have hIH := ih (some n) pr hinner h1r h2r hcg
                constructor
                · intro r hr
                  rcases List.mem_cons.mp hr with rfl | hmem
                  · have hfs := fill_safe hfc1
                      (h1 (c :: cells) (List.mem_cons_self _ _)) hv2
                      hcgn.1 hcgn.2.1
                    refine ⟨?_, hfs.1, hfs.2, ?_⟩
                    · cases hemp : is_empty_row (n :: cells)
                      · rfl
                      · exfalso
                        have hxx := is_empty_row_iff.mp hemp n
                          (List.mem_cons_self _ _)
                        rw [hcgn.1] at hxx
                        exact hcgn.2.1 hxx
                    · intro i hi h
                      rcases i with _ | k
                      · exact hcgn.2.2 hi
                      · exact h2 (c :: cells) (List.mem_cons_self _ _) (k + 1) hi h
                  · exact hIH.1 r hmem
                · exact RowsFrom.fill (c :: cells) n hIH.2
        · rw [ff_loop_cons_keep hv1 hv2 hfc] at hff
          rcases hinner : ff_loop cinn rest
              (if clean_str (row.headD "") ≠ "" then none else cg) with _ | pr
          · rw [hinner] at hff; cases hff
          · rw [hinner] at hff
            have hres : res = (row :: pr.1, pr.2.1, pr.2.2) :=
              (Option.some.inj hff).symm
            subst hres
            have hcg2 : ∀ m,
                (if clean_str (row.headD "") ≠ "" then none else cg) = some m →
                clean_str m = m ∧ m ≠ "" ∧
                  (0 ∈ nidx → ' ' ∉ m.data ∧ '\u00A0' ∉ m.data) := by
              intro m hm
              by_cases hq : clean_str (row.headD "") ≠ ""
              · rw [if_pos hq] at hm; cases hm
              · rw [if_neg hq] at hm; exact hcg m hm
            have hIH := ih _ pr hinner h1r h2r hcg2
            constructor
            · intro r hr
              rcases List.mem_cons.mp hr with rfl | hmem
              · exact ⟨h1 r (List.mem_cons_self _ _), hv1, hv2,
                  h2 r (List.mem_cons_self _ _)⟩
              · exact hIH.1 r hmem
            · exact RowsFrom.emit row hIH.2

/-! ## clean_csv pipeline decomposition for C5 -/

/-- A successful header search returns an in-range index whose row satisfies
the primary or the fallback rule. -/
theorem find_header_ok_facts {rows : List (List String)} {hidx : Nat}
    (h : find_header_index rows = .ok hidx) :
    ∃ hlt : hidx < rows.length,
      (primary_header_row (rows.get ⟨hidx, hlt⟩) = true ∨
       fallback_header_row (rows.get ⟨hidx, hlt⟩) = true) := by
  unfold find_header_index at h
  rcases hp : rows.findIdx? primary_header_row with _ | i
  · rw [hp] at h
    rcases hf : rows.findIdx? fallback_header_row with _ | i
    · rw [hf] at h; cases h
    · rw [hf] at h
      have hi : i = hidx := Except.ok.inj h
      subst hi
      rcases List.findIdx?_eq_some_iff_getElem.mp hf with ⟨hlt, hpred, _⟩
      exact ⟨hlt, Or.inr (by simpa [List.get_eq_getElem] using hpred)⟩
  · rw [hp] at h
    have hi : i = hidx := Except.ok.inj h
    subst hi
    rcases List.findIdx?_eq_some_iff_getElem.mp hp with ⟨hlt, hpred, _⟩
    exact ⟨hlt, Or.inl (by simpa [List.get_eq_getElem] using hpred)⟩

/-- Decomposition of steps 4–5 of the pipeline: with a non-blank header on
top, the blank-row filter and the trailer truncation keep the header first,
and leave a sublist of the filtered data rows, all non-blank. -/
theorem clean_pre5_decomp {rows3 : List (List String)} {pH : List String}
    {data3 : List (List String)} {hdr : List String}
    {rest5 : List (List String)}
    (h3 : rows3 = pH :: data3) (hnb : is_empty_row pH = false)
    (hE : truncate_trailer (rows3.filter (fun row => ¬ is_empty_row row)) =
      hdr :: rest5) :
    hdr = pH ∧
      List.Sublist rest5 (data3.filter (fun row => ¬ is_empty_row row)) ∧
      (∀ r ∈ rest5, is_empty_row r = false) := by
  subst h3
  have hfil : (pH :: data3).filter (fun row => ¬ is_empty_row row) =
      pH :: data3.filter (fun row => ¬ is_empty_row row) := by
    rw [List.filter_cons_of_pos (by simp [hnb])]
  rw [hfil] at hE
  unfold truncate_trailer at hE
  rcases hidxq : (pH :: data3.filter (fun row => ¬ is_empty_row row)).findIdx?
      starts_vypracoval with _ | k
  · rw [hidxq] at hE
    have hE2 : pH :: data3.filter (fun row => ¬ is_empty_row row) =
        hdr :: rest5 := hE
    injection hE2 with ha hb
    subst hb
    refine ⟨ha.symm, List.Sublist.refl _, ?_⟩
    intro r hr
    simpa using List.of_mem_filter hr
  · rw [hidxq] at hE
    have hE2 : List.take k (pH :: data3.filter (fun row => ¬ is_empty_row row)) =
        hdr :: rest5 := hE
    cases k with
    | zero => cases hE2
    | succ k2 =>
      rw [List.take_succ_cons] at hE2
      injection hE2 with ha hb
      subst hb
      refine ⟨ha.symm, List.take_sublist _ _, ?_⟩
      intro r hr
      have hr2 : r ∈ data3.filter (fun row => ¬ is_empty_row row) :=
        (List.take_sublist _ _).subset hr
      simpa using List.of_mem_filter hr2

/-- Extraction from a successful run of the whole cleaning pipeline: the
forward fill succeeded, and the final data rows form a sublist of its
output rows. -/
theorem clean_csv_rows_ok_parts {rows out : List (List String)} {hidx : Nat}
    {hdr : List String} {rest5 : List (List String)}
    (hfind : find_header_index rows = .ok hidx)
    (hE : clean_pre5 rows hidx = hdr :: rest5)
    (hok : clean_csv_rows rows = .ok out) :
    ∃ pr : List (List String) × Nat × Nat,
      ff_loop (find_cinn_col_index hdr) rest5 none = some pr ∧
      List.Sublist (out.drop 1) pr.1 := by
  have e1 : clean_csv_rows rows =
      (match clean_pre5 rows hidx with
      | [] => Except.ok ([] : List (List String))
      | header :: _ =>
        match forward_fill_from_summary (clean_pre5 rows hidx)
            (find_cinn_col_index header) with
        | none => Except.error "IndexError"
        | some (r6, _, _) =>
          Except.ok ((if r6.length > 1 ∧
              (is_summary_variant1 (r6.getLastD []) (find_cinn_col_index header) ∨
               is_summary_variant2 (r6.getLastD []) (find_cinn_col_index header))
            then r6.dropLast else r6).filter
            (fun row => ¬ exclude_vyplata row))) := by
    unfold clean_csv_rows
    rw [hfind]
  rw [hE] at e1
  have e2 : clean_csv_rows rows =
      (match (ff_loop (find_cinn_col_index hdr) rest5 none).map
          (fun pr => (hdr :: pr.1, pr.2)) with
      | none => Except.error "IndexError"
      | some (r6, _, _) =>
        Except.ok ((if r6.length > 1 ∧
            (is_summary_variant1 (r6.getLastD []) (find_cinn_col_index hdr) ∨
             is_summary_variant2 (r6.getLastD []) (find_cinn_col_index hdr))
          then r6.dropLast else r6).filter
          (fun row => ¬ exclude_vyplata row))) := by
    rw [e1]
    rfl
  rcases hff : ff_loop (find_cinn_col_index hdr) rest5 none with _ | ⟨ffOut, fc, rc⟩
  · rw [hff] at e2
    rw [hok] at e2
    cases e2
  · rw [hff] at e2
    have e3 : clean_csv_rows rows =
        Except.ok ((if (hdr :: ffOut).length > 1 ∧
            (is_summary_variant1 ((hdr :: ffOut).getLastD [])
              (find_cinn_col_index hdr) ∨
             is_summary_variant2 ((hdr :: ffOut).getLastD [])
              (find_cinn_col_index hdr))
          then (hdr :: ffOut).dropLast else hdr :: ffOut).filter
          (fun row => ¬ exclude_vyplata row)) := by
      rw [e2]
      rfl
    rw [hok] at e3
    have hout := Except.ok.inj e3
    refine ⟨(ffOut, fc, rc), rfl, ?_⟩
    have t1 : List.Sublist (out.drop 1)
        ((if (hdr :: ffOut).length > 1 ∧
            (is_summary_variant1 ((hdr :: ffOut).getLastD [])
              (find_cinn_col_index hdr) ∨
             is_summary_variant2 ((hdr :: ffOut).getLastD [])
              (find_cinn_col_index hdr))
          then (hdr :: ffOut).dropLast else hdr :: ffOut).tail) := by
      rw [List.drop_one, hout]
      exact tail_sublist_tail (List.filter_sublist _)
    refine t1.trans ?_
    by_cases hC : (hdr :: ffOut).length > 1 ∧
        (is_summary_variant1 ((hdr :: ffOut).getLastD [])
          (find_cinn_col_index hdr) ∨
         is_summary_variant2 ((hdr :: ffOut).getLastD [])
          (find_cinn_col_index hdr))
    · rw [if_pos hC]
      exact tail_sublist_tail (List.dropLast_sublist _)
    · rw [if_neg hC]
      exact List.Sublist.refl _

/-! ## C5 — invariants of the cleaned table -/

/-- C5, counterexample to the original claim: the full cleaning pipeline
accepts this table unchanged, yet the surviving data row's cell at
designated numeric index 1 still contains a tab, which is a whitespace
character — the scrub removes only spaces and NBSPs, not all whitespace. -/
theorem c5_counterexample :
    clean_csv_rows [["Názov", "Účet MD", "Účet Dal", "Činn."],
        ["a", "1\t2", "3", "4"]] =
      .ok [["Názov", "Účet MD", "Účet Dal", "Činn."],
        ["a", "1\t2", "3", "4"]] ∧
    1 ∈ numeric_indices_of ["Názov", "Účet MD", "Účet Dal", "Činn."] ∧
    '\t' ∈ "1\t2".data ∧ pyIsSpace '\t' = true := by
  refine ⟨rfl, by decide, by decide, by decide⟩

/-- C5 (amended): for every table accepted by the full cleaning pipeline,
with located header index and surviving header row, every data row of the
output is not blank, is not a Variant-A or Variant-B summary row relative
to the Activity column of the surviving header, and carries no ordinary
space and no NBSP (rather than no whitespace at all) in any designated
numeric-ish cell; and the output data rows are rows of the source table in
their original relative order, each transformed by the per-row
projection-and-scrub transform, possibly with column 0 forward-filled. -/
theorem c5_invariants_amended (rows out : List (List String))
    (hok : clean_csv_rows rows = .ok out)
    (hidx : Nat) (hfind : find_header_index rows = .ok hidx)
    (hdr : List String) (hhdr : (clean_pre5 rows hidx).head? = some hdr) :
    (∀ r ∈ out.drop 1,
      is_empty_row r = false ∧
      is_summary_variant1 r (find_cinn_col_index hdr) = false ∧
      is_summary_variant2 r (find_cinn_col_index hdr) = false ∧
      row_numeric_clean (numeric_indices_of hdr) r) ∧
    RowsFrom (clean_row_transform rows) rows (out.drop 1) := by
  rcases hE0 : clean_pre5 rows hidx with _ | ⟨h0, rest5⟩
  · rw [hE0] at hhdr; cases hhdr
  · rw [hE0] at hhdr
    have hh0 : hdr = h0 := (Option.some.inj hhdr).symm
    subst hh0
    rcases find_header_ok_facts hfind with ⟨hlt, hrule⟩
    have hA : rows.drop hidx = rows[hidx] :: rows.drop (hidx + 1) :=
      List.drop_eq_getElem_cons hlt
    have hf : clean_row_transform rows = fun r =>
        strip_transform (select_required_columns (rows.drop hidx))
          (proj_transform (rows.drop hidx) r) := by
      unfold clean_row_transform
      rw [hfind]
    have hsel : select_required_columns (rows.drop hidx) =
        (rows.drop hidx).map (proj_transform (rows.drop hidx)) :=
      select_eq_map (rows.drop hidx)
    have htail : (rows.drop hidx).tail = rows.drop (hidx + 1) := by
      rw [hA]
      rfl
    have hrows2 : select_required_columns (rows.drop hidx) =
        proj_transform (rows.drop hidx) rows[hidx] ::
          (rows.drop (hidx + 1)).map (proj_transform (rows.drop hidx)) := by
      rw [hsel]
      nth_rewrite 2 [hA]
      rw [List.map_cons]
    have hnbA : is_empty_row rows[hidx] = false := by
      rcases hrule with h | h
      · exact primary_nonblank (by simpa [List.get_eq_getElem] using h)
      · exact fallback_nonblank (by simpa [List.get_eq_getElem] using h)
    have hpHnb : is_empty_row
        (proj_transform (rows.drop hidx) rows[hidx]) = false := by
      rw [hA]
      exact proj_transform_header_nonblank _ hnbA
    have hfun : (strip_row (numeric_indices_of
        (proj_transform (rows.drop hidx) rows[hidx]))) ∘
        (proj_transform (rows.drop hidx)) = clean_row_transform rows := by
      funext r
      simp only [Function.comp, hf]
      conv_rhs => rw [hrows2]
      rfl
    have h3 : strip_spaces_in_numeric_cols
        (select_required_columns (rows.drop hidx)) =
        proj_transform (rows.drop hidx) rows[hidx] ::
          (rows.drop hidx).tail.map (clean_row_transform rows) := by
      rw [hrows2]
      show proj_transform (rows.drop hidx) rows[hidx] ::
          ((rows.drop (hidx + 1)).map (proj_transform (rows.drop hidx))).map
            (strip_row (numeric_indices_of
              (proj_transform (rows.drop hidx) rows[hidx]))) = _
      rw [List.map_map, htail, hfun]
    have hdec := clean_pre5_decomp h3 hpHnb hE0
    rcases hdec with ⟨hhdrEq, hsub5, hnb5⟩
    have hH2 : ∀ r ∈ rest5, row_numeric_clean (numeric_indices_of hdr) r := by
      intro r hr
      have hr2 := hsub5.subset hr
      have hr3 := List.mem_of_mem_filter hr2
      rcases List.mem_map.mp hr3 with ⟨r0, _, heq0⟩
      have heq : clean_row_transform rows r0 =
          (strip_row (numeric_indices_of
            (proj_transform (rows.drop hidx) rows[hidx])) ∘
            (proj_transform (rows.drop hidx))) r0 := (congrFun hfun r0).symm
      rw [← heq0, heq, hhdrEq]
      exact strip_row_clean (numeric_indices_nodup _) _
    obtain ⟨pr, hff, hs5out⟩ := clean_csv_rows_ok_parts hfind hE0 hok
    have hspec := ff_loop_spec (find_cinn_col_index hdr)
      (numeric_indices_of hdr) rest5 none pr hff hnb5 hH2
      (fun m hm => by cases hm)
    constructor
    · intro r hr
      exact hspec.1 r (hs5out.subset hr)
    · have hMsub : List.Sublist rest5
          ((rows.drop hidx).tail.map (clean_row_transform rows)) :=
        hsub5.trans (List.filter_sublist _)
      have hid := rowsFrom_superlist hMsub hspec.2
      have hMfull : RowsFrom (clean_row_transform rows) rows
          ((rows.drop hidx).tail.map (clean_row_transform rows)) := by
        have hx := rowsFrom_prepend (clean_row_transform rows) (rows.take hidx)
          (rowsFrom_tail_map (clean_row_transform rows) (rows.drop hidx))
        rwa [List.take_append_drop] at hx
      exact rowsFrom_sublist_out (rowsFrom_comp hMfull hid) hs5out

/-- C5, witness: a concrete run of the amended theorem, on a table whose
Variant-A summary row is dropped and forward-fills the following row. -/
theorem c5_invariants_amended_witness :
    clean_csv_rows [["Názov", "Účet MD", "Účet Dal", "Činn."],
        ["TOTAL", "", "", "9"], ["", "1 1", "2", "3"], ["b", "4", "5", "6"]] =
      .ok [["Názov", "Účet MD", "Účet Dal", "Činn."],
        ["TOTAL", "11", "2", "3"], ["b", "4", "5", "6"]] ∧
    ((∀ r ∈ ([["Názov", "Účet MD", "Účet Dal", "Činn."],
        ["TOTAL", "11", "2", "3"], ["b", "4", "5", "6"]] :
          List (List String)).drop 1,
      is_empty_row r = false ∧
      is_summary_variant1 r (find_cinn_col_index
        ["Názov", "Účet MD", "Účet Dal", "Činn."]) = false ∧
      is_summary_variant2 r (find_cinn_col_index
        ["Názov", "Účet MD", "Účet Dal", "Činn."]) = false ∧
      row_numeric_clean (numeric_indices_of
        ["Názov", "Účet MD", "Účet Dal", "Činn."]) r) ∧
    RowsFrom (clean_row_transform
        [["Názov", "Účet MD", "Účet Dal", "Činn."],
          ["TOTAL", "", "", "9"], ["", "1 1", "2", "3"], ["b", "4", "5", "6"]])
      [["Názov", "Účet MD", "Účet Dal", "Činn."],
        ["TOTAL", "", "", "9"], ["", "1 1", "2", "3"], ["b", "4", "5", "6"]]
      (([["Názov", "Účet MD", "Účet Dal", "Činn."],
        ["TOTAL", "11", "2", "3"], ["b", "4", "5", "6"]] :
          List (List String)).drop 1)) :=
  ⟨rfl,
    c5_invariants_amended
      [["Názov", "Účet MD", "Účet Dal", "Činn."],
        ["TOTAL", "", "", "9"], ["", "1 1", "2", "3"], ["b", "4", "5", "6"]]
      [["Názov", "Účet MD", "Účet Dal", "Činn."],
        ["TOTAL", "11", "2", "3"], ["b", "4", "5", "6"]]
      rfl 0 rfl ["Názov", "Účet MD", "Účet Dal", "Činn."] rfl⟩
